import Mathlib

/-!
Shallow embedding of the dungeon generator in src/dungeon.ts
(halftheopposite/dungeon).  The generator's own file is the authority for
every definition below; the helper modules it imports (types.ts, utils.ts,
patterns.ts, the Poisson disc sampler) are not part of the sources, so the
few facts needed about them (rectangle accessors, the weighted coin, the
shuffle, the pattern libraries) are modelled from the specification and
marked as such.  JavaScript numbers are modelled as Int where the program
only ever holds integral values and as Rat where fractional values occur
(ratios, chances, centers); Math.random outcomes are threaded in as
explicit oracle arguments.
-/

/-- Modelled from the spec: a hole or trap pattern from the external,
read-only pattern library exposes a width, a height and a fixed 2D array
of tile ids. -/
structure Pattern where
  width : Int
  height : Int
  tiles : List (List Int)
deriving DecidableEq, Repr

/-- A room rectangle owned by a leaf container (types.ts is external;
rectangle fields modelled from the spec). -/
structure Room where
  x : Int
  y : Int
  width : Int
  height : Int
  holes : Option Pattern := none
deriving DecidableEq, Repr

/-- A corridor rectangle owned by an internal container. -/
structure Corridor where
  x : Int
  y : Int
  width : Int
  height : Int
  traps : Option Pattern := none
deriving DecidableEq, Repr

/-- A container of the spatial partition; `room` and `corridor` are set by
the later pipeline stages (mutation in the source, functional update
here). -/
structure Container where
  x : Int
  y : Int
  width : Int
  height : Int
  room : Option Room := none
  corridor : Option Corridor := none
deriving DecidableEq, Repr

/-- Modelled from the spec: the Rect-like center accessor,
(x + width / 2, y + height / 2), a possibly fractional point. -/
def Container.center (c : Container) : Rat × Rat :=
  ((c.x : Rat) + (c.width : Rat) / 2, (c.y : Rat) + (c.height : Rat) / 2)

/-- The binary partition tree of containers.  generateTree always creates
either zero or two children, which the two constructors mirror. -/
inductive PTree where
  | leaf (c : Container)
  | node (c : Container) (l r : PTree)
deriving DecidableEq, Repr

/-- The container stored at the root of a (sub)tree (TreeNode.leaf in the
source). -/
def containerOf : PTree → Container
  | .leaf c => c
  | .node c _ _ => c

/-- TreeNode.leaves: the leaf containers of a subtree, left to right. -/
def leavesOf : PTree → List Container
  | .leaf c => [c]
  | .node _ l r => leavesOf l ++ leavesOf r

/-- Leaf count of the tree. -/
def numLeaves : PTree → Nat
  | .leaf _ => 1
  | .node _ l r => numLeaves l + numLeaves r

/-- The lengths of all root-to-leaf paths. -/
def pathLengths : PTree → List Nat
  | .leaf _ => [0]
  | .node _ l r => (pathLengths l ++ pathLengths r).map (fun d => d + 1)

/-- All containers stored anywhere in the tree. -/
def allContainers : PTree → List Container
  | .leaf c => [c]
  | .node c l r => c :: (allContainers l ++ allContainers r)

/-- The DungeonArgs parameter record of the generator. -/
structure DungeonArgs where
  mapWidth : Int
  mapHeight : Int
  mapGutterWidth : Int
  iterations : Nat
  containerGutterWidth : Int
  containerWidthRatio : Rat
  containerHeightRatio : Rat
  roomGutterWidth : Int
  roomMaxMonsters : Nat
  roomMinSize : Int
  roomHoleChance : Rat
  corridorWidth : Rat
  corridorTrapChance : Rat

/-- Modelled from the spec: utils.ts randomWeights draws the outcome whose
cumulative weight interval contains the uniform draw r from [0, 1); the
last outcome is returned when no earlier interval matched. -/
def randomWeights {α : Type} (dflt : α) : List Rat → List α → Rat → Rat → α
  | [_], v :: _, _, _ => v
  | w :: ws, v :: vs, r, s =>
      if r < s + w then v else randomWeights dflt ws vs r (s + w)
  | _, _, _, _ => dflt

/-- One random draw consumed by splitContainer: the 50/50 direction coin
(true = vertical) and the split point drawn by random(1, side). -/
structure Choice where
  dir : Bool
  r : Int
deriving DecidableEq, Repr

/-- splitContainer (dungeon.ts:119).  The retry loop on a failed ratio
check is modelled by consuming the list of random choices; an exhausted
list means the retry loop is still running (none is returned). -/
def splitContainer (a : DungeonArgs) (c : Container) :
    List Choice → Option ((Container × Container) × List Choice)
  | [] => none
  | ch :: rest =>
    if ch.dir then
      let left : Container := { x := c.x, y := c.y, width := ch.r, height := c.height }
      let right : Container :=
        { x := c.x + left.width, y := c.y, width := c.width - left.width, height := c.height }
      if (left.width : Rat) / (left.height : Rat) < a.containerWidthRatio ∨
         (right.width : Rat) / (right.height : Rat) < a.containerWidthRatio then
        splitContainer a c rest
      else
        some ((left, right), rest)
    else
      let left : Container := { x := c.x, y := c.y, width := c.width, height := ch.r }
      let right : Container :=
        { x := c.x, y := c.y + left.height, width := c.width, height := c.height - left.height }
      if (left.height : Rat) / (left.width : Rat) < a.containerHeightRatio ∨
         (right.height : Rat) / (right.width : Rat) < a.containerHeightRatio then
        splitContainer a c rest
      else
        some ((left, right), rest)

/-- generateTree (dungeon.ts:103): recursively split until iterations
reaches 0; the random choices are threaded through. -/
def generateTree (a : DungeonArgs) : Nat → Container → List Choice →
    Option (PTree × List Choice)
  | 0, c, l => some (.leaf c, l)
  | n + 1, c, l =>
    match splitContainer a c l with
    | none => none
    | some ((left, right), l1) =>
      match generateTree a n left l1 with
      | none => none
      | some (tl, l2) =>
        match generateTree a n right l2 with
        | none => none
        | some (tr, l3) => some (.node c tl tr, l3)

/-- The root container built by the Dungeon constructor (dungeon.ts:66). -/
def rootContainer (a : DungeonArgs) : Container :=
  { x := a.mapGutterWidth, y := a.mapGutterWidth,
    width := a.mapWidth - a.mapGutterWidth * 2,
    height := a.mapHeight - a.mapGutterWidth * 2 }

/-- The long side of a rectangle divided by its short side. -/
def longShortRatio (w h : Int) : Rat :=
  ((max w h : Int) : Rat) / ((min w h : Int) : Rat)

lemma ratio_le_longShortRatio (w h : Int) (q : Rat) (hw : 0 < w) (hh : 0 < h)
    (hq : ¬((w : Rat) / (h : Rat) < q)) : q ≤ longShortRatio w h := by
  have hq2 : q ≤ (w : Rat) / (h : Rat) := le_of_not_lt hq
  refine hq2.trans ?_
  have hwq : (0 : Rat) < (w : Rat) := by exact_mod_cast hw
  have hhq : (0 : Rat) < (h : Rat) := by exact_mod_cast hh
  unfold longShortRatio
  rcases le_total w h with hle | hle
  · rw [max_eq_right hle, min_eq_left hle]
    rw [div_le_div_iff₀ hhq hwq]
    have : (w : Rat) ≤ (h : Rat) := by exact_mod_cast hle
    nlinarith
  · rw [max_eq_left hle, min_eq_right hle]

/-- C6: a split actually returned by splitContainer (not retried) exactly
partitions the parent rectangle along one axis: in a vertical split both
children keep the parent's y and height, the widths sum to the parent's
width and the right child starts where the left child ends; symmetrically
for a horizontal split. -/
theorem splitContainer_partition (a : DungeonArgs) (c : Container)
    (l : List Choice) (L R : Container) (rest : List Choice)
    (h : splitContainer a c l = some ((L, R), rest)) :
    (L.x = c.x ∧ L.y = c.y ∧ L.height = c.height ∧ R.y = c.y ∧
     R.height = c.height ∧ R.x = L.x + L.width ∧ L.width + R.width = c.width) ∨
    (L.x = c.x ∧ L.y = c.y ∧ L.width = c.width ∧ R.x = c.x ∧
     R.width = c.width ∧ R.y = L.y + L.height ∧ L.height + R.height = c.height) := by
  induction l with
  | nil => simp [splitContainer] at h
  | cons ch rest2 ih =>
    rw [splitContainer] at h
    by_cases hd : ch.dir
    · simp only [hd, if_true] at h
      split at h
      · exact ih h
      · simp only [Option.some.injEq, Prod.mk.injEq] at h
        obtain ⟨⟨hL, hR⟩, _⟩ := h
        subst hL; subst hR
        left
        refine ⟨rfl, rfl, rfl, rfl, rfl, rfl, ?_⟩
        show ch.r + (c.width - ch.r) = c.width
        omega
    · simp only [hd, if_false, Bool.false_eq_true] at h
      split at h
      · exact ih h
      · simp only [Option.some.injEq, Prod.mk.injEq] at h
        obtain ⟨⟨hL, hR⟩, _⟩ := h
        subst hL; subst hR
        right
        refine ⟨rfl, rfl, rfl, rfl, rfl, rfl, ?_⟩
        show ch.r + (c.height - ch.r) = c.height
        omega

/-- C6 witness: the partition property evaluated on a concrete accepted
split. -/
theorem splitContainer_partition_witness :
    (Container.mk 0 0 4 8 none none).x = (Container.mk 0 0 8 8 none none).x ∧
      (Container.mk 0 0 4 8 none none).y = (Container.mk 0 0 8 8 none none).y ∧
      (Container.mk 0 0 4 8 none none).height = (Container.mk 0 0 8 8 none none).height ∧
      (Container.mk 4 0 4 8 none none).y = (Container.mk 0 0 8 8 none none).y ∧
      (Container.mk 4 0 4 8 none none).height = (Container.mk 0 0 8 8 none none).height ∧
      (Container.mk 4 0 4 8 none none).x =
        (Container.mk 0 0 4 8 none none).x + (Container.mk 0 0 4 8 none none).width ∧
      (Container.mk 0 0 4 8 none none).width + (Container.mk 4 0 4 8 none none).width =
        (Container.mk 0 0 8 8 none none).width ∨
    (Container.mk 0 0 4 8 none none).x = (Container.mk 0 0 8 8 none none).x ∧
      (Container.mk 0 0 4 8 none none).y = (Container.mk 0 0 8 8 none none).y ∧
      (Container.mk 0 0 4 8 none none).width = (Container.mk 0 0 8 8 none none).width ∧
      (Container.mk 4 0 4 8 none none).x = (Container.mk 0 0 8 8 none none).x ∧
      (Container.mk 4 0 4 8 none none).width = (Container.mk 0 0 8 8 none none).width ∧
      (Container.mk 4 0 4 8 none none).y =
        (Container.mk 0 0 4 8 none none).y + (Container.mk 0 0 4 8 none none).height ∧
      (Container.mk 0 0 4 8 none none).height + (Container.mk 4 0 4 8 none none).height =
        (Container.mk 0 0 8 8 none none).height :=
  splitContainer_partition
    (DungeonArgs.mk 10 10 1 1 1 (1/4) (1/4) 1 2 2 0 2 0)
    (Container.mk 0 0 8 8 none none)
    [Choice.mk true 4] (Container.mk 0 0 4 8 none none) (Container.mk 4 0 4 8 none none) []
    (by norm_num [splitContainer])

/-- C9: a split returned by splitContainer passed the aspect-ratio
acceptance test of the axis it was split on (width/height against
containerWidthRatio for a vertical split, height/width against
containerHeightRatio for a horizontal one), and consequently, when the
split point is in the range random(1, side) draws from, each child's
long-to-short ratio is not below the configured minimum; a candidate
failing the check is retried, never returned. -/
theorem splitContainer_ratio (a : DungeonArgs) (c : Container)
    (l : List Choice) (L R : Container) (rest : List Choice)
    (hw : 0 < c.width) (hh : 0 < c.height)
    (hl : ∀ ch ∈ l, 1 ≤ ch.r ∧ (ch.dir = true → ch.r < c.width) ∧
      (ch.dir = false → ch.r < c.height))
    (h : splitContainer a c l = some ((L, R), rest)) :
    (¬((L.width : Rat) / (L.height : Rat) < a.containerWidthRatio) ∧
     ¬((R.width : Rat) / (R.height : Rat) < a.containerWidthRatio) ∧
     a.containerWidthRatio ≤ longShortRatio L.width L.height ∧
     a.containerWidthRatio ≤ longShortRatio R.width R.height) ∨
    (¬((L.height : Rat) / (L.width : Rat) < a.containerHeightRatio) ∧
     ¬((R.height : Rat) / (R.width : Rat) < a.containerHeightRatio) ∧
     a.containerHeightRatio ≤ longShortRatio L.width L.height ∧
     a.containerHeightRatio ≤ longShortRatio R.width R.height) := by
  induction l with
  | nil => simp [splitContainer] at h
  | cons ch rest2 ih =>
    have hch := hl ch (List.mem_cons_self ch rest2)
    have hl2 : ∀ ch2 ∈ rest2, 1 ≤ ch2.r ∧ (ch2.dir = true → ch2.r < c.width) ∧
        (ch2.dir = false → ch2.r < c.height) :=
      fun ch2 hm => hl ch2 (List.mem_cons_of_mem ch hm)
    rw [splitContainer] at h
    by_cases hd : ch.dir
    · simp only [hd, if_true] at h
      split at h
      · exact ih hl2 h
      · rename_i hacc
        rw [not_or] at hacc
        obtain ⟨hacc1, hacc2⟩ := hacc
        simp only [Option.some.injEq, Prod.mk.injEq] at h
        obtain ⟨⟨hL, hR⟩, _⟩ := h
        subst hL; subst hR
        left
        have hr1 : (0 : Int) < ch.r := by omega
        have hr2 : (0 : Int) < c.width - ch.r := by
          have := (hch.2.1) hd
          omega
        exact ⟨hacc1, hacc2,
          ratio_le_longShortRatio _ _ _ hr1 hh hacc1,
          ratio_le_longShortRatio _ _ _ hr2 hh hacc2⟩
    · have hd2 : ch.dir = false := by simpa using hd
      simp only [hd2, Bool.false_eq_true, if_false] at h
      split at h
      · exact ih hl2 h
      · rename_i hacc
        rw [not_or] at hacc
        obtain ⟨hacc1, hacc2⟩ := hacc
        simp only [Option.some.injEq, Prod.mk.injEq] at h
        obtain ⟨⟨hL, hR⟩, _⟩ := h
        subst hL; subst hR
        right
        have hr1 : (0 : Int) < ch.r := by omega
        have hr2 : (0 : Int) < c.height - ch.r := by
          have := (hch.2.2) hd2
          omega
        have e1 := ratio_le_longShortRatio ch.r c.width a.containerHeightRatio hr1 hw hacc1
        have e2 := ratio_le_longShortRatio (c.height - ch.r) c.width a.containerHeightRatio hr2 hw hacc2
        refine ⟨hacc1, hacc2, ?_, ?_⟩
        · show a.containerHeightRatio ≤ longShortRatio c.width ch.r
          rwa [longShortRatio, max_comm, min_comm]
        · show a.containerHeightRatio ≤ longShortRatio c.width (c.height - ch.r)
          rwa [longShortRatio, max_comm, min_comm]

/-- C9 witness: the ratio acceptance property evaluated on a concrete
accepted split of an 8 by 8 container. -/
theorem splitContainer_ratio_witness :
    (¬(((Container.mk 0 0 4 8 none none).width : Rat) /
        ((Container.mk 0 0 4 8 none none).height : Rat) <
        (DungeonArgs.mk 10 10 1 1 1 (1/4) (1/4) 1 2 2 0 2 0).containerWidthRatio) ∧
     ¬(((Container.mk 4 0 4 8 none none).width : Rat) /
        ((Container.mk 4 0 4 8 none none).height : Rat) <
        (DungeonArgs.mk 10 10 1 1 1 (1/4) (1/4) 1 2 2 0 2 0).containerWidthRatio) ∧
     (DungeonArgs.mk 10 10 1 1 1 (1/4) (1/4) 1 2 2 0 2 0).containerWidthRatio ≤
        longShortRatio (Container.mk 0 0 4 8 none none).width (Container.mk 0 0 4 8 none none).height ∧
     (DungeonArgs.mk 10 10 1 1 1 (1/4) (1/4) 1 2 2 0 2 0).containerWidthRatio ≤
        longShortRatio (Container.mk 4 0 4 8 none none).width (Container.mk 4 0 4 8 none none).height) ∨
    (¬(((Container.mk 0 0 4 8 none none).height : Rat) /
        ((Container.mk 0 0 4 8 none none).width : Rat) <
        (DungeonArgs.mk 10 10 1 1 1 (1/4) (1/4) 1 2 2 0 2 0).containerHeightRatio) ∧
     ¬(((Container.mk 4 0 4 8 none none).height : Rat) /
        ((Container.mk 4 0 4 8 none none).width : Rat) <
        (DungeonArgs.mk 10 10 1 1 1 (1/4) (1/4) 1 2 2 0 2 0).containerHeightRatio) ∧
     (DungeonArgs.mk 10 10 1 1 1 (1/4) (1/4) 1 2 2 0 2 0).containerHeightRatio ≤
        longShortRatio (Container.mk 0 0 4 8 none none).width (Container.mk 0 0 4 8 none none).height ∧
     (DungeonArgs.mk 10 10 1 1 1 (1/4) (1/4) 1 2 2 0 2 0).containerHeightRatio ≤
        longShortRatio (Container.mk 4 0 4 8 none none).width (Container.mk 4 0 4 8 none none).height) :=
  splitContainer_ratio
    (DungeonArgs.mk 10 10 1 1 1 (1/4) (1/4) 1 2 2 0 2 0)
    (Container.mk 0 0 8 8 none none)
    [Choice.mk true 4] (Container.mk 0 0 4 8 none none) (Container.mk 4 0 4 8 none none) []
    (by decide) (by decide) (by decide) (by norm_num [splitContainer])

/-- C1: whenever generateTree returns (every split succeeded within the
supplied random draws), the resulting partition tree is a full binary
tree: it has exactly 2 ^ iterations leaves and every root-to-leaf path
has length exactly iterations. -/
theorem generateTree_perfect (a : DungeonArgs) :
    ∀ (n : Nat) (c : Container) (l : List Choice) (t : PTree) (rest : List Choice),
      generateTree a n c l = some (t, rest) →
      numLeaves t = 2 ^ n ∧ ∀ d ∈ pathLengths t, d = n := by
  intro n
  induction n with
  | zero =>
    intro c l t rest h
    simp only [generateTree, Option.some.injEq, Prod.mk.injEq] at h
    obtain ⟨ht, _⟩ := h
    subst ht
    simp [numLeaves, pathLengths]
  | succ n ih =>
    intro c l t rest h
    rw [generateTree] at h
    split at h
    · exact absurd h (by simp)
    · rename_i hsplit
      split at h
      · exact absurd h (by simp)
      · rename_i tl l2 hleft
        split at h
        · exact absurd h (by simp)
        · rename_i tr l3 hright
          simp only [Option.some.injEq, Prod.mk.injEq] at h
          obtain ⟨ht, _⟩ := h
          subst ht
          obtain ⟨hnl, hpl⟩ := ih _ _ _ _ hleft
          obtain ⟨hnr, hpr⟩ := ih _ _ _ _ hright
          constructor
          · show numLeaves tl + numLeaves tr = 2 ^ (n + 1)
            rw [hnl, hnr, pow_succ]
            omega
          · intro d hd
            simp only [pathLengths, List.mem_map, List.mem_append] at hd
            obtain ⟨d0, hd0, hde⟩ := hd
            rcases hd0 with hd0 | hd0
            · rw [← hde, hpl d0 hd0]
            · rw [← hde, hpr d0 hd0]

/-- C1 witness: a concrete one-iteration run returning a full tree with
two leaves and all paths of length one. -/
theorem generateTree_perfect_witness :
    numLeaves (PTree.node (Container.mk 0 0 8 8 none none)
      (PTree.leaf (Container.mk 0 0 4 8 none none))
      (PTree.leaf (Container.mk 4 0 4 8 none none))) = 2 ^ 1 ∧
    ∀ d ∈ pathLengths (PTree.node (Container.mk 0 0 8 8 none none)
      (PTree.leaf (Container.mk 0 0 4 8 none none))
      (PTree.leaf (Container.mk 4 0 4 8 none none))), d = 1 :=
  generateTree_perfect
    (DungeonArgs.mk 10 10 1 1 1 (1/4) (1/4) 1 2 2 0 2 0) 1
    (Container.mk 0 0 8 8 none none) [Choice.mk true 4]
    (PTree.node (Container.mk 0 0 8 8 none none)
      (PTree.leaf (Container.mk 0 0 4 8 none none))
      (PTree.leaf (Container.mk 4 0 4 8 none none))) []
    (by norm_num [generateTree, splitContainer])

/-- The random draws consumed for one leaf by generateRooms: the two
origin jitters random(0, floor(side / 4)), the two size jitters, and the
uniform draw of the hole coin.  random returns integers (modelled from
the spec), so the Math.floor around the origin sum is the identity and is
dropped. -/
structure RoomRand where
  jx : Int
  jy : Int
  jw : Int
  jh : Int
  rHole : Rat

/-- The room origin x computed by generateRooms (dungeon.ts:191). -/
def roomX (c : Container) (a : DungeonArgs) (o : RoomRand) : Int :=
  c.x + a.containerGutterWidth + o.jx

/-- The room origin y computed by generateRooms (dungeon.ts:196). -/
def roomY (c : Container) (a : DungeonArgs) (o : RoomRand) : Int :=
  c.y + a.containerGutterWidth + o.jy

/-- The room width computed by generateRooms (dungeon.ts:201). -/
def roomW (c : Container) (a : DungeonArgs) (o : RoomRand) : Int :=
  c.width - (roomX c a o - c.x) - a.containerGutterWidth - o.jw

/-- The room height computed by generateRooms (dungeon.ts:206). -/
def roomH (c : Container) (a : DungeonArgs) (o : RoomRand) : Int :=
  c.height - (roomY c a o - c.y) - a.containerGutterWidth - o.jh

/-- The hole scan of generateRooms (dungeon.ts:225): walk the library in
order and keep the first fitting pattern (the !room.holes test makes
later iterations no-ops). -/
def attachHole (rwid rhgt : Int) (lib : List Pattern) : Option Pattern :=
  lib.foldl (fun acc hole =>
    match acc with
    | some _ => acc
    | none =>
      if hole.width * 2 ≤ rwid ∧ hole.height * 2 ≤ rhgt then some hole else none) none

/-- The weighted boolean coin randomWeights([p, 1 - p], [true, false])
used for holes and traps. -/
def coinFlip (chance : Rat) (r : Rat) : Bool :=
  randomWeights false [chance, 1 - chance] [true, false] r 0

/-- The per-leaf body of generateRooms (dungeon.ts:189): compute the
jittered inset room, dismiss it when below roomMinSize, otherwise attach
it (with an optional hole pattern) to the container. -/
def assignRoom (a : DungeonArgs) (lib : List Pattern) (c : Container)
    (o : RoomRand) : Container :=
  if roomW c a o < a.roomMinSize ∨ roomH c a o < a.roomMinSize then c
  else
    let room0 : Room :=
      { x := roomX c a o, y := roomY c a o, width := roomW c a o, height := roomH c a o }
    let room1 :=
      if coinFlip a.roomHoleChance o.rHole then
        { room0 with holes := attachHole room0.width room0.height lib }
      else room0
    { c with room := some room1 }

/-- generateRooms iterates the leaves left to right, consuming one
RoomRand each; the helper threads the index of the next draw. -/
def genRoomsAux (a : DungeonArgs) (lib : List Pattern) (os : Nat → RoomRand) :
    PTree → Nat → PTree × Nat
  | .leaf c, i => (.leaf (assignRoom a lib c (os i)), i + 1)
  | .node c l r, i =>
    (.node c (genRoomsAux a lib os l i).1
      (genRoomsAux a lib os r (genRoomsAux a lib os l i).2).1,
     (genRoomsAux a lib os r (genRoomsAux a lib os l i).2).2)

/-- generateRooms (dungeon.ts:185). -/
def generateRooms (a : DungeonArgs) (lib : List Pattern) (t : PTree)
    (os : Nat → RoomRand) : PTree :=
  (genRoomsAux a lib os t 0).1

lemma mem_leaves_genRoomsAux (a : DungeonArgs) (lib : List Pattern)
    (os : Nat → RoomRand) :
    ∀ (t : PTree) (i : Nat) (c2 : Container),
      c2 ∈ leavesOf (genRoomsAux a lib os t i).1 →
      ∃ j c, c ∈ leavesOf t ∧ c2 = assignRoom a lib c (os j) := by
  intro t
  induction t with
  | leaf c =>
    intro i c2 h
    simp only [genRoomsAux, leavesOf, List.mem_singleton] at h
    exact ⟨i, c, by simp [leavesOf], h⟩
  | node c l r ihl ihr =>
    intro i c2 h
    simp only [genRoomsAux, leavesOf, List.mem_append] at h
    rcases h with h | h
    · obtain ⟨j, c0, hc0, he⟩ := ihl _ _ h
      exact ⟨j, c0, by simp [leavesOf, hc0], he⟩
    · obtain ⟨j, c0, hc0, he⟩ := ihr _ _ h
      exact ⟨j, c0, by simp [leavesOf, hc0], he⟩

lemma assignRoom_room_cases (a : DungeonArgs) (lib : List Pattern)
    (c : Container) (o : RoomRand) (r : Room)
    (hnone : c.room = none) (h : (assignRoom a lib c o).room = some r) :
    ¬(roomW c a o < a.roomMinSize ∨ roomH c a o < a.roomMinSize) ∧
    r.x = roomX c a o ∧ r.y = roomY c a o ∧
    r.width = roomW c a o ∧ r.height = roomH c a o ∧
    r.holes = (if coinFlip a.roomHoleChance o.rHole then
      attachHole (roomW c a o) (roomH c a o) lib else none) := by
  unfold assignRoom at h
  split at h
  · rw [hnone] at h; exact absurd h (by simp)
  · rename_i hdis
    by_cases hc : coinFlip a.roomHoleChance o.rHole
    · simp only [hc, if_true] at h ⊢
      simp only [Option.some.injEq] at h
      subst h
      exact ⟨hdis, rfl, rfl, rfl, rfl, rfl⟩
    · simp only [hc, if_false, Bool.false_eq_true] at h ⊢
      simp only [Option.some.injEq] at h
      subst h
      exact ⟨hdis, rfl, rfl, rfl, rfl, rfl⟩

lemma assignRoom_rect (a : DungeonArgs) (lib : List Pattern)
    (c : Container) (o : RoomRand) :
    (assignRoom a lib c o).x = c.x ∧ (assignRoom a lib c o).y = c.y ∧
    (assignRoom a lib c o).width = c.width ∧
    (assignRoom a lib c o).height = c.height := by
  unfold assignRoom
  split
  · exact ⟨rfl, rfl, rfl, rfl⟩
  · exact ⟨rfl, rfl, rfl, rfl⟩

/-- C2: every room assigned by generateRooms to a (previously roomless)
leaf lies fully inside that leaf container's rectangle and has width and
height at least roomMinSize; and a leaf whose computed room width or
height falls below roomMinSize keeps no room at all (the container is
returned untouched, not an error). -/
theorem generateRooms_bounds (a : DungeonArgs) (lib : List Pattern)
    (t : PTree) (os : Nat → RoomRand)
    (hg : 0 ≤ a.containerGutterWidth)
    (hos : ∀ j, 0 ≤ (os j).jx ∧ 0 ≤ (os j).jy ∧ 0 ≤ (os j).jw ∧ 0 ≤ (os j).jh)
    (hroomless : ∀ c ∈ leavesOf t, c.room = none) :
    (∀ c2 ∈ leavesOf (generateRooms a lib t os), ∀ r, c2.room = some r →
      c2.x ≤ r.x ∧ c2.y ≤ r.y ∧ r.x + r.width ≤ c2.x + c2.width ∧
      r.y + r.height ≤ c2.y + c2.height ∧
      a.roomMinSize ≤ r.width ∧ a.roomMinSize ≤ r.height) ∧
    (∀ c o, (roomW c a o < a.roomMinSize ∨ roomH c a o < a.roomMinSize) →
      (assignRoom a lib c o).room = c.room) := by
  constructor
  · intro c2 hc2 r hr
    obtain ⟨j, c0, hc0, he⟩ := mem_leaves_genRoomsAux a lib os t 0 c2 hc2
    obtain ⟨hjx, hjy, hjw, hjh⟩ := hos j
    have hnone := hroomless c0 hc0
    subst he
    obtain ⟨hdis, hrx, hry, hrw, hrh, _⟩ :=
      assignRoom_room_cases a lib c0 (os j) r hnone hr
    obtain ⟨hcx, hcy, hcw, hch⟩ := assignRoom_rect a lib c0 (os j)
    rw [hcx, hcy, hcw, hch, hrx, hry, hrw, hrh]
    rw [not_or, not_lt, not_lt] at hdis
    unfold roomW roomH roomX roomY at hdis ⊢
    obtain ⟨h1, h2⟩ := hdis
    refine ⟨by omega, by omega, by omega, by omega, by omega, by omega⟩
  · intro c o hdis
    unfold assignRoom
    rw [if_pos hdis]

/-- C2 witness: the room bounds property evaluated at a concrete
single-leaf tree with unit gutters and jitters. -/
theorem generateRooms_bounds_witness :
    (∀ c2 ∈ leavesOf (generateRooms
        (DungeonArgs.mk 10 10 1 1 1 (1/4) (1/4) 1 2 2 0 2 0) []
        (PTree.leaf (Container.mk 0 0 8 8 none none))
        (fun _ => RoomRand.mk 1 1 1 1 0)), ∀ r, c2.room = some r →
      c2.x ≤ r.x ∧ c2.y ≤ r.y ∧ r.x + r.width ≤ c2.x + c2.width ∧
      r.y + r.height ≤ c2.y + c2.height ∧
      (DungeonArgs.mk 10 10 1 1 1 (1/4) (1/4) 1 2 2 0 2 0).roomMinSize ≤ r.width ∧
      (DungeonArgs.mk 10 10 1 1 1 (1/4) (1/4) 1 2 2 0 2 0).roomMinSize ≤ r.height) ∧
    (∀ c o, (roomW c (DungeonArgs.mk 10 10 1 1 1 (1/4) (1/4) 1 2 2 0 2 0) o <
        (DungeonArgs.mk 10 10 1 1 1 (1/4) (1/4) 1 2 2 0 2 0).roomMinSize ∨
      roomH c (DungeonArgs.mk 10 10 1 1 1 (1/4) (1/4) 1 2 2 0 2 0) o <
        (DungeonArgs.mk 10 10 1 1 1 (1/4) (1/4) 1 2 2 0 2 0).roomMinSize) →
      (assignRoom (DungeonArgs.mk 10 10 1 1 1 (1/4) (1/4) 1 2 2 0 2 0) [] c o).room = c.room) :=
  generateRooms_bounds
    (DungeonArgs.mk 10 10 1 1 1 (1/4) (1/4) 1 2 2 0 2 0) []
    (PTree.leaf (Container.mk 0 0 8 8 none none))
    (fun _ => RoomRand.mk 1 1 1 1 0)
    (by decide) (by intro j; refine ⟨?_, ?_, ?_, ?_⟩ <;> norm_num)
    (by decide)

lemma foldl_attach_some (p : Pattern) (rwid rhgt : Int) :
    ∀ lib : List Pattern,
      lib.foldl (fun acc hole =>
        match acc with
        | some _ => acc
        | none =>
          if hole.width * 2 ≤ rwid ∧ hole.height * 2 ≤ rhgt then some hole else none)
        (some p) = some p := by
  intro lib
  induction lib with
  | nil => rfl
  | cons h t ih => rw [List.foldl_cons]; exact ih

lemma attachHole_eq_find (rwid rhgt : Int) : ∀ lib : List Pattern,
    attachHole rwid rhgt lib =
      lib.find? (fun p => decide (p.width * 2 ≤ rwid) && decide (p.height * 2 ≤ rhgt)) := by
  intro lib
  induction lib with
  | nil => rfl
  | cons h t ih =>
    unfold attachHole
    rw [List.foldl_cons]
    by_cases hf : h.width * 2 ≤ rwid ∧ h.height * 2 ≤ rhgt
    · show List.foldl _ (if h.width * 2 ≤ rwid ∧ h.height * 2 ≤ rhgt
        then some h else none) t = _
      rw [if_pos hf, foldl_attach_some,
        List.find?_cons_of_pos _ (by simp [hf.1, hf.2])]
    · show List.foldl _ (if h.width * 2 ≤ rwid ∧ h.height * 2 ≤ rhgt
        then some h else none) t = _
      rw [if_neg hf, List.find?_cons_of_neg _ (by simpa using hf)]
      exact ih

lemma coinFlip_zero (r : Rat) (hr : 0 ≤ r) : coinFlip 0 r = false := by
  have hn : ¬(r < 0 + 0) := by simpa using not_lt.mpr hr
  simp only [coinFlip, randomWeights, if_neg hn]

lemma assignRoom_holes_zero (a : DungeonArgs) (lib : List Pattern)
    (c : Container) (o : RoomRand) (r : Room)
    (h0 : a.roomHoleChance = 0) (hr : 0 ≤ o.rHole)
    (hnone : c.room = none) (h : (assignRoom a lib c o).room = some r) :
    r.holes = none := by
  obtain ⟨_, _, _, _, _, hh⟩ := assignRoom_room_cases a lib c o r hnone h
  rw [h0] at hh
  rw [coinFlip_zero o.rHole hr] at hh
  simpa using hh

/-- C7: the hole scan keeps exactly the first library pattern whose width
and height fit twice into the room (a find-first over the library, hence
at most one hole per room); when the coin drawn with roomHoleChance comes
up true the attached option is exactly that scan's result; and with
roomHoleChance = 0 no room produced by generateRooms ever carries a hole
pattern. -/
theorem generateRooms_holes (a : DungeonArgs) (lib : List Pattern) :
    (∀ rwid rhgt : Int, attachHole rwid rhgt lib =
      lib.find? (fun p => decide (p.width * 2 ≤ rwid) && decide (p.height * 2 ≤ rhgt))) ∧
    (∀ c o r, c.room = none → coinFlip a.roomHoleChance o.rHole = true →
      (assignRoom a lib c o).room = some r →
      r.holes = attachHole r.width r.height lib) ∧
    (∀ t os, a.roomHoleChance = 0 → (∀ j, 0 ≤ (os j).rHole) →
      (∀ c ∈ leavesOf t, c.room = none) →
      ∀ c2 ∈ leavesOf (generateRooms a lib t os), ∀ r, c2.room = some r →
        r.holes = none) := by
  refine ⟨fun rwid rhgt => attachHole_eq_find rwid rhgt lib, ?_, ?_⟩
  · intro c o r hnone hcoin h
    obtain ⟨_, _, _, hw, hh, hholes⟩ := assignRoom_room_cases a lib c o r hnone h
    rw [hholes, if_pos hcoin, hw, hh]
  · intro t os h0 hr hroomless c2 hc2 r hrm
    obtain ⟨j, c0, hc0, he⟩ := mem_leaves_genRoomsAux a lib os t 0 c2 hc2
    subst he
    exact assignRoom_holes_zero a lib c0 (os j) r h0 (hr j) (hroomless c0 hc0) hrm

/-- C7 witness: with roomHoleChance = 0 the concrete generated room
carries no hole pattern. -/
theorem generateRooms_holes_witness :
    Container.mk 0 0 8 8 (some (Room.mk 2 2 4 4 none)) none ∈
      leavesOf (generateRooms (DungeonArgs.mk 10 10 1 1 1 (1/4) (1/4) 1 2 2 0 2 0)
        [Pattern.mk 1 1 [[0]]]
        (PTree.leaf (Container.mk 0 0 8 8 none none))
        (fun _ => RoomRand.mk 1 1 1 1 0)) ∧
    (Room.mk 2 2 4 4 none).holes = none := by
  have hmem : Container.mk 0 0 8 8 (some (Room.mk 2 2 4 4 none)) none ∈
      leavesOf (generateRooms (DungeonArgs.mk 10 10 1 1 1 (1/4) (1/4) 1 2 2 0 2 0)
        [Pattern.mk 1 1 [[0]]]
        (PTree.leaf (Container.mk 0 0 8 8 none none))
        (fun _ => RoomRand.mk 1 1 1 1 0)) := by
    norm_num [generateRooms, genRoomsAux, assignRoom, roomX, roomY, roomW, roomH,
      coinFlip, randomWeights, leavesOf, attachHole]
  refine ⟨hmem, ?_⟩
  exact (generateRooms_holes (DungeonArgs.mk 10 10 1 1 1 (1/4) (1/4) 1 2 2 0 2 0)
      [Pattern.mk 1 1 [[0]]]).2.2
    (PTree.leaf (Container.mk 0 0 8 8 none none))
    (fun _ => RoomRand.mk 1 1 1 1 0) rfl
    (by intro j; norm_num)
    (by decide)
    (Container.mk 0 0 8 8 (some (Room.mk 2 2 4 4 none)) none) hmem
    (Room.mk 2 2 4 4 none) rfl

/-- The closed set of monster types. -/
inductive MonsterType where
  | bandit
  | skeleton
  | troll
  | mushroom
deriving DecidableEq, Repr

/-- A placed monster: position, collision radius and type. -/
structure Monster where
  x : Rat
  y : Rat
  radius : Int
  type : MonsterType
deriving DecidableEq, Repr

/-- Modelled from the spec: utils.ts shuffleArray produces a uniform
random permutation; it is modelled as a selection shuffle driven by a
list of random index draws (draws exhausted leaves the rest in place). -/
def shuffleArray {α : Type} : List Nat → List α → List α
  | [], l => l
  | _ :: _, [] => []
  | s :: rest, a :: t =>
    (a :: t).getD (s % (a :: t).length) a ::
      shuffleArray rest ((a :: t).eraseIdx (s % (a :: t).length))

/-- The random draws consumed for one leaf by generateMonsters: the point
set returned by the external Poisson disc sampler (a finite list of
points inside the requested shape), the shuffle draws, and the uniform
draws of the per-monster type choice. -/
structure MonsterRand where
  points : List (Rat × Rat)
  shuffleSeeds : List Nat
  typeSeeds : Nat → Rat

/-- The weighted monster type draw of generateMonsters (dungeon.ts:323). -/
def monsterTypeDraw (r : Rat) : MonsterType :=
  randomWeights MonsterType.bandit [1/2, 3/10, 3/20, 1/20]
    [MonsterType.bandit, MonsterType.skeleton, MonsterType.troll, MonsterType.mushroom] r 0

/-- The per-leaf body of generateMonsters (dungeon.ts:301): no room means
no monsters; otherwise shuffle the sampled points, keep at most
roomMaxMonsters of them, and place one monster per kept point at the
room origin plus roomGutterWidth plus the point. -/
def placeLeafMonsters (a : DungeonArgs) (c : Container) (o : MonsterRand) :
    List Monster :=
  match c.room with
  | none => []
  | some room =>
    (((shuffleArray o.shuffleSeeds o.points).take a.roomMaxMonsters).enum).map
      (fun ip =>
        { x := (room.x : Rat) + (a.roomGutterWidth : Rat) + ip.2.1,
          y := (room.y : Rat) + (a.roomGutterWidth : Rat) + ip.2.2,
          radius := 3,
          type := monsterTypeDraw (o.typeSeeds ip.1) })

/-- generateMonsters (dungeon.ts:295): concatenate the per-leaf monster
lists over the leaves in order. -/
def generateMonsters (a : DungeonArgs) (t : PTree) (os : Nat → MonsterRand) :
    List Monster :=
  (((leavesOf t).enum).map (fun ic => placeLeafMonsters a ic.2 (os ic.1))).flatten

lemma mem_shuffleArray {α : Type} :
    ∀ (seeds : List Nat) (l : List α) (x : α), x ∈ shuffleArray seeds l → x ∈ l := by
  intro seeds
  induction seeds with
  | nil => intro l x h; simpa [shuffleArray] using h
  | cons s rest ih =>
    intro l x h
    match l with
    | [] => simp [shuffleArray] at h
    | a :: t =>
      rw [shuffleArray] at h
      have hlen : s % (a :: t).length < (a :: t).length :=
        Nat.mod_lt _ (by simp)
      rcases List.mem_cons.mp h with h1 | h1
      · rw [h1, List.getD_eq_getElem (a :: t) a hlen]
        exact List.getElem_mem hlen
      · exact (List.eraseIdx_sublist (a :: t) (s % (a :: t).length)).mem (ih _ _ h1)

lemma shuffleArray_nil {α : Type} : ∀ seeds : List Nat,
    shuffleArray seeds ([] : List α) = [] := by
  intro seeds
  cases seeds <;> rfl

lemma mem_placeLeafMonsters (a : DungeonArgs) (c : Container) (o : MonsterRand)
    (room : Room) (hr : c.room = some room) (m : Monster)
    (hm : m ∈ placeLeafMonsters a c o) :
    ∃ p ∈ o.points,
      m.x = (room.x : Rat) + (a.roomGutterWidth : Rat) + p.1 ∧
      m.y = (room.y : Rat) + (a.roomGutterWidth : Rat) + p.2 := by
  unfold placeLeafMonsters at hm
  rw [hr] at hm
  obtain ⟨ip, hip, he⟩ := List.mem_map.mp hm
  have hp1 : ip.2 ∈ (shuffleArray o.shuffleSeeds o.points).take a.roomMaxMonsters := by
    have := hip
    rw [List.enum_eq_zip_range] at this
    exact (List.of_mem_zip (by simpa using this)).2
  have hp2 : ip.2 ∈ shuffleArray o.shuffleSeeds o.points := List.mem_of_mem_take hp1
  have hp3 : ip.2 ∈ o.points := mem_shuffleArray _ _ _ hp2
  exact ⟨ip.2, hp3, by rw [← he], by rw [← he]⟩

/-- C8: a leaf without a room, or with an empty sampled point set,
contributes no monsters; a leaf with a room gets at most roomMaxMonsters
monsters; every placed monster sits at the room origin plus
roomGutterWidth plus one of the sampled points, and hence inside the
room's gutter-inset interior whenever the sampler kept its contract of
returning points inside the requested shape. -/
theorem generateMonsters_bounds (a : DungeonArgs) :
    (∀ c o, c.room = none → placeLeafMonsters a c o = []) ∧
    (∀ c o, o.points = [] → placeLeafMonsters a c o = []) ∧
    (∀ c o, (placeLeafMonsters a c o).length ≤ a.roomMaxMonsters) ∧
    (∀ c o room, c.room = some room → ∀ m ∈ placeLeafMonsters a c o,
      ∃ p ∈ o.points,
        m.x = (room.x : Rat) + (a.roomGutterWidth : Rat) + p.1 ∧
        m.y = (room.y : Rat) + (a.roomGutterWidth : Rat) + p.2) ∧
    (∀ c o room, c.room = some room →
      (∀ p ∈ o.points,
        0 ≤ p.1 ∧ p.1 ≤ ((room.width - a.roomGutterWidth * 2 : Int) : Rat) ∧
        0 ≤ p.2 ∧ p.2 ≤ ((room.height - a.roomGutterWidth * 2 : Int) : Rat)) →
      ∀ m ∈ placeLeafMonsters a c o,
        (room.x : Rat) + (a.roomGutterWidth : Rat) ≤ m.x ∧
        m.x ≤ (room.x : Rat) + (room.width : Rat) - (a.roomGutterWidth : Rat) ∧
        (room.y : Rat) + (a.roomGutterWidth : Rat) ≤ m.y ∧
        m.y ≤ (room.y : Rat) + (room.height : Rat) - (a.roomGutterWidth : Rat)) := by
  refine ⟨?_, ?_, ?_, ?_, ?_⟩
  · intro c o h
    unfold placeLeafMonsters
    rw [h]
  · intro c o h
    unfold placeLeafMonsters
    cases hr : c.room with
    | none => rfl
    | some room => rw [h, shuffleArray_nil]; simp
  · intro c o
    unfold placeLeafMonsters
    cases hr : c.room with
    | none => simp
    | some room =>
      rw [List.length_map, List.enum_length]
      exact List.length_take_le _ _
  · intro c o room hr m hm
    exact mem_placeLeafMonsters a c o room hr m hm
  · intro c o room hr hpts m hm
    obtain ⟨p, hp, hx, hy⟩ := mem_placeLeafMonsters a c o room hr m hm
    obtain ⟨h1, h2, h3, h4⟩ := hpts p hp
    rw [hx, hy]
    push_cast at h2 h4 ⊢
    refine ⟨by linarith, by linarith, by linarith, by linarith⟩

/-- C8 witness: the monster bounds evaluated on a concrete room with one
sampled point. -/
theorem generateMonsters_bounds_witness :
    (∀ p ∈ [((1 : Rat), (1 : Rat))],
      0 ≤ p.1 ∧ p.1 ≤ (((Room.mk 2 2 4 4 none).width -
        (DungeonArgs.mk 10 10 1 1 1 (1/4) (1/4) 1 2 2 0 2 0).roomGutterWidth * 2 : Int) : Rat) ∧
      0 ≤ p.2 ∧ p.2 ≤ (((Room.mk 2 2 4 4 none).height -
        (DungeonArgs.mk 10 10 1 1 1 (1/4) (1/4) 1 2 2 0 2 0).roomGutterWidth * 2 : Int) : Rat)) ∧
    (∀ m ∈ placeLeafMonsters (DungeonArgs.mk 10 10 1 1 1 (1/4) (1/4) 1 2 2 0 2 0)
        (Container.mk 0 0 8 8 (some (Room.mk 2 2 4 4 none)) none)
        (MonsterRand.mk [(1, 1)] [0] (fun _ => 0)),
      ((Room.mk 2 2 4 4 none).x : Rat) +
        ((DungeonArgs.mk 10 10 1 1 1 (1/4) (1/4) 1 2 2 0 2 0).roomGutterWidth : Rat) ≤ m.x ∧
      m.x ≤ ((Room.mk 2 2 4 4 none).x : Rat) + ((Room.mk 2 2 4 4 none).width : Rat) -
        ((DungeonArgs.mk 10 10 1 1 1 (1/4) (1/4) 1 2 2 0 2 0).roomGutterWidth : Rat) ∧
      ((Room.mk 2 2 4 4 none).y : Rat) +
        ((DungeonArgs.mk 10 10 1 1 1 (1/4) (1/4) 1 2 2 0 2 0).roomGutterWidth : Rat) ≤ m.y ∧
      m.y ≤ ((Room.mk 2 2 4 4 none).y : Rat) + ((Room.mk 2 2 4 4 none).height : Rat) -
        ((DungeonArgs.mk 10 10 1 1 1 (1/4) (1/4) 1 2 2 0 2 0).roomGutterWidth : Rat)) := by
  constructor
  · intro p hp
    rw [List.mem_singleton] at hp
    subst hp
    norm_num
  · exact (generateMonsters_bounds
      (DungeonArgs.mk 10 10 1 1 1 (1/4) (1/4) 1 2 2 0 2 0)).2.2.2.2
      (Container.mk 0 0 8 8 (some (Room.mk 2 2 4 4 none)) none)
      (MonsterRand.mk [(1, 1)] [0] (fun _ => 0))
      (Room.mk 2 2 4 4 none) rfl
      (by intro p hp; rw [List.mem_singleton] at hp; subst hp; norm_num)

/-- A tile or prop grid, indexed grid y x like the source's
tilemap[y][x]; the carving loops bound y by the grid height and x by the
row width, carried along here as explicit dimensions hh and ww.
createTilemap(width, height, value) is the constant grid. -/
def Grid : Type := Nat → Nat → Int

/-- createTilemap (utils.ts, modelled from the spec): a grid filled with
one value. -/
def createTilemap (v : Int) : Grid := fun _ _ => v

/-- Writing one cell of a grid. -/
def updateG (g : Grid) (y x : Nat) (v : Int) : Grid :=
  fun y2 x2 => if y2 = y ∧ x2 = x then v else g y2 x2

/-- Modelled from the spec: the Rect-like bottom edge y + height. -/
def Corridor.down (c : Corridor) : Int := c.y + c.height

/-- Modelled from the spec: the Rect-like right edge x + width. -/
def Corridor.right (c : Corridor) : Int := c.x + c.width

/-- The double loop of carveCorridors (dungeon.ts:387): set every cell of
the corridor rectangle (clipped by the grid bounds the loops run over) to
floor 0. -/
def carveRect (cor : Corridor) (hh ww : Nat) (g : Grid) : Grid :=
  fun y x =>
    if y < hh ∧ x < ww ∧ cor.y ≤ (y : Int) ∧ (y : Int) < cor.down ∧
       cor.x ≤ (x : Int) ∧ (x : Int) < cor.right then 0 else g y x

/-- The corridors stored in a subtree, in the order carveCorridors visits
them; a node without a corridor stops the traversal (early return before
the recursive calls), exactly as in the source. -/
def corridorsOf : PTree → List Corridor
  | .leaf c =>
    match c.corridor with
    | none => []
    | some cor => [cor]
  | .node c l r =>
    match c.corridor with
    | none => []
    | some cor => cor :: (corridorsOf l ++ corridorsOf r)

/-- carveCorridors (dungeon.ts:377).  Its first grid parameter is the one
the source names props and carves to 0; its second, named tilemap there,
is only threaded through.  The caller passes the actual tile grid first
(see corridorStage below). -/
def carveCorridors (hh ww : Nat) : PTree → Grid → Grid → Grid × Grid
  | .leaf c, pg, tg =>
    match c.corridor with
    | none => (pg, tg)
    | some cor => (carveRect cor hh ww pg, tg)
  | .node c l r, pg, tg =>
    match c.corridor with
    | none => (pg, tg)
    | some cor =>
      carveCorridors hh ww r
        (carveCorridors hh ww l (carveRect cor hh ww pg) tg).1
        (carveCorridors hh ww l (carveRect cor hh ww pg) tg).2

/-- The corridor-carving stage exactly as generateTilemap invokes it
(dungeon.ts:347): this.carveCorridors(tree, tilemap, props) binds the
tile grid to the parameter the source names props and the prop grid to
the parameter named tilemap. -/
def corridorStage (hh ww : Nat) (t : PTree) (tilemapG propsG : Grid) : Grid × Grid :=
  carveCorridors hh ww t tilemapG propsG

lemma carveCorridors_snd (hh ww : Nat) :
    ∀ (t : PTree) (pg tg : Grid), (carveCorridors hh ww t pg tg).2 = tg := by
  intro t
  induction t with
  | leaf c =>
    intro pg tg
    unfold carveCorridors
    cases c.corridor <;> rfl
  | node c l r ihl ihr =>
    intro pg tg
    unfold carveCorridors
    cases c.corridor with
    | none => rfl
    | some cor => rw [ihr, ihl]

lemma carveRect_keeps_zero (cor : Corridor) (hh ww : Nat) (g : Grid)
    (y x : Nat) (h : g y x = 0) : carveRect cor hh ww g y x = 0 := by
  unfold carveRect
  split
  · rfl
  · exact h

lemma carveCorridors_keeps_zero (hh ww : Nat) :
    ∀ (t : PTree) (pg tg : Grid) (y x : Nat), pg y x = 0 →
      (carveCorridors hh ww t pg tg).1 y x = 0 := by
  intro t
  induction t with
  | leaf c =>
    intro pg tg y x h
    unfold carveCorridors
    cases c.corridor with
    | none => exact h
    | some cor => exact carveRect_keeps_zero cor hh ww pg y x h
  | node c l r ihl ihr =>
    intro pg tg y x h
    unfold carveCorridors
    cases c.corridor with
    | none => exact h
    | some cor =>
      exact ihr _ _ y x (ihl _ _ y x (carveRect_keeps_zero cor hh ww pg y x h))

/-- C3 amended: the corridor-carving stage, as invoked by
generateTilemap, sets every in-bounds cell of every corridor rectangle to
floor (0) in the TILE grid, and leaves the PROP grid unchanged (the
source's parameter names are swapped relative to its call site, so the
spec's tile/prop roles are reversed). -/
theorem corridorStage_carves (hh ww : Nat) (t : PTree) (tilemapG propsG : Grid) :
    (corridorStage hh ww t tilemapG propsG).2 = propsG ∧
    (∀ cor ∈ corridorsOf t, ∀ y x, y < hh → x < ww →
      cor.y ≤ (y : Int) → (y : Int) < cor.down →
      cor.x ≤ (x : Int) → (x : Int) < cor.right →
      (corridorStage hh ww t tilemapG propsG).1 y x = 0) := by
  constructor
  · exact carveCorridors_snd hh ww t tilemapG propsG
  · unfold corridorStage
    induction t generalizing tilemapG propsG with
    | leaf c =>
      intro cor hcor y x hy hx h1 h2 h3 h4
      unfold corridorsOf at hcor
      unfold carveCorridors
      cases hc : c.corridor with
      | none => rw [hc] at hcor; simp at hcor
      | some cor0 =>
        rw [hc] at hcor
        rw [List.mem_singleton] at hcor
        subst hcor
        show carveRect cor hh ww tilemapG y x = 0
        unfold carveRect
        rw [if_pos ⟨hy, hx, h1, h2, h3, h4⟩]
    | node c l r ihl ihr =>
      intro cor hcor y x hy hx h1 h2 h3 h4
      unfold corridorsOf at hcor
      unfold carveCorridors
      cases hc : c.corridor with
      | none => rw [hc] at hcor; simp at hcor
      | some cor0 =>
        rw [hc] at hcor
        rcases List.mem_cons.mp hcor with hcor | hcor
        · subst hcor
          apply carveCorridors_keeps_zero
          apply carveCorridors_keeps_zero
          unfold carveRect
          rw [if_pos ⟨hy, hx, h1, h2, h3, h4⟩]
        · rcases List.mem_append.mp hcor with hcor | hcor
          · apply carveCorridors_keeps_zero
            exact ihl _ _ cor hcor y x hy hx h1 h2 h3 h4
          · exact ihr _ _ cor hcor y x hy hx h1 h2 h3 h4

/-- C3 counterexample: on a concrete tree whose root holds the corridor
(5, 3, 6, 4), the corridor-carving stage invoked as in generateTilemap
(all-solid tile grid, all-empty prop grid, no rooms so the preceding room
carving is the identity) rewrites the TILE grid: cell y = 3, x = 5 goes
from 1 to 0.  The claim that this stage leaves the tile grid unchanged is
therefore false. -/
theorem corridorStage_changes_tilemap :
    createTilemap 1 3 5 = 1 ∧
    (corridorStage 10 10
      (PTree.node (Container.mk 1 1 8 8 none (some (Corridor.mk 5 3 6 4 none)))
        (PTree.leaf (Container.mk 1 1 8 4 none none))
        (PTree.leaf (Container.mk 1 5 8 4 none none)))
      (createTilemap 1) (createTilemap 0)).1 3 5 = 0 := by
  constructor
  · rfl
  · decide

/-- C3 witness: the amended corridor-carving property evaluated on a
concrete tree, corridor cell and pair of grids. -/
theorem corridorStage_carves_witness :
    Corridor.mk 5 3 6 4 none ∈ corridorsOf
      (PTree.node (Container.mk 1 1 8 8 none (some (Corridor.mk 5 3 6 4 none)))
        (PTree.leaf (Container.mk 1 1 8 4 none none))
        (PTree.leaf (Container.mk 1 5 8 4 none none))) ∧
    (corridorStage 10 10
      (PTree.node (Container.mk 1 1 8 8 none (some (Corridor.mk 5 3 6 4 none)))
        (PTree.leaf (Container.mk 1 1 8 4 none none))
        (PTree.leaf (Container.mk 1 5 8 4 none none)))
      (createTilemap 7) (createTilemap 2)).2 = createTilemap 2 ∧
    (corridorStage 10 10
      (PTree.node (Container.mk 1 1 8 8 none (some (Corridor.mk 5 3 6 4 none)))
        (PTree.leaf (Container.mk 1 1 8 4 none none))
        (PTree.leaf (Container.mk 1 5 8 4 none none)))
      (createTilemap 7) (createTilemap 2)).1 4 6 = 0 := by
  refine ⟨by decide, ?_, ?_⟩
  · exact (corridorStage_carves 10 10
      (PTree.node (Container.mk 1 1 8 8 none (some (Corridor.mk 5 3 6 4 none)))
        (PTree.leaf (Container.mk 1 1 8 4 none none))
        (PTree.leaf (Container.mk 1 5 8 4 none none)))
      (createTilemap 7) (createTilemap 2)).1
  · exact (corridorStage_carves 10 10
      (PTree.node (Container.mk 1 1 8 8 none (some (Corridor.mk 5 3 6 4 none)))
        (PTree.leaf (Container.mk 1 1 8 4 none none))
        (PTree.leaf (Container.mk 1 5 8 4 none none)))
      (createTilemap 7) (createTilemap 2)).2
      (Corridor.mk 5 3 6 4 none) (by decide) 4 6 (by decide) (by decide)
      (by decide) (by decide) (by decide) (by decide)

namespace TileDirection

/-- Modelled from the spec: the West bit of the 4-bit cardinal mask. -/
def West : Int := 1

/-- Modelled from the spec: the East bit of the 4-bit cardinal mask. -/
def East : Int := 2

/-- Modelled from the spec: the North bit of the 4-bit cardinal mask. -/
def North : Int := 4

/-- Modelled from the spec: the South bit of the 4-bit cardinal mask. -/
def South : Int := 8

/-- Modelled from the spec: the NorthWest diagonal bit used by the
normalization pass. -/
def NorthWest : Int := 16

/-- Modelled from the spec: the NorthEast diagonal bit used by the
normalization pass. -/
def NorthEast : Int := 32

end TileDirection

/-- Modelled from the spec: the north-west-south outer-corner constant
written by normalization rule (a). -/
def DirectionNWS : Int :=
  Int.lor (Int.lor TileDirection.North TileDirection.West) TileDirection.South

/-- Modelled from the spec: the north-east-south outer-corner constant
written by normalization rule (b). -/
def DirectionNES : Int :=
  Int.lor (Int.lor TileDirection.North TileDirection.East) TileDirection.South

/-- The four cardinal sides probed by isColliding. -/
inductive Side where
  | north
  | west
  | east
  | south
deriving DecidableEq, Repr

/-- isColliding (dungeon.ts:535): a neighbor beyond the grid boundary
counts as solid, otherwise the neighboring cell must hold a value
greater than 0. -/
def isColliding (hh ww : Nat) (g : Grid) (x y : Nat) : Side → Bool
  | .north => if y = 0 then true else decide (0 < g (y - 1) x)
  | .east => if x = ww - 1 then true else decide (0 < g y (x + 1))
  | .west => if x = 0 then true else decide (0 < g y (x - 1))
  | .south => if y = hh - 1 then true else decide (0 < g (y + 1) x)

/-- getTileMask (dungeon.ts:510): OR together the flags of the colliding
sides, starting from 0. -/
def getTileMask (hh ww : Nat) (g : Grid) (x y : Nat) : Int :=
  let m0 : Int := 0
  let m1 := if isColliding hh ww g x y .west then Int.lor m0 TileDirection.West else m0
  let m2 := if isColliding hh ww g x y .east then Int.lor m1 TileDirection.East else m1
  let m3 := if isColliding hh ww g x y .north then Int.lor m2 TileDirection.North else m2
  if isColliding hh ww g x y .south then Int.lor m3 TileDirection.South else m3

/-- One iteration of the generateTileMask loop body (dungeon.ts:503):
replace a solid cell by its mask, leave other cells alone. -/
def maskStep (hh ww : Nat) (g : Grid) (y x : Nat) : Grid :=
  if 0 < g y x then updateG g y x (getTileMask hh ww g x y) else g

/-- The cells an hh x ww double loop visits from row-major rank k on. -/
def cellsFrom (hh ww k : Nat) : List (Nat × Nat) :=
  (List.range' k (hh * ww - k)).map (fun i => (i / ww, i % ww))

/-- generateTileMask (dungeon.ts:500): the nested y/x loops, modelled as
one in-place fold over the cells in row-major order. -/
def generateTileMask (hh ww : Nat) (g : Grid) : Grid :=
  (cellsFrom hh ww 0).foldl (fun acc yx => maskStep hh ww acc yx.1 yx.2) g

/-- The mask the specification describes: the sum of the four direction
flags of the cardinal neighbors that are solid in the grid g, the
boundary counting as solid.  The flags are distinct powers of two, so
the sum coincides with the OR the code computes. -/
def maskSpec (hh ww : Nat) (g : Grid) (x y : Nat) : Int :=
  (if x = 0 ∨ 0 < g y (x - 1) then TileDirection.West else 0) +
  (if x = ww - 1 ∨ 0 < g y (x + 1) then TileDirection.East else 0) +
  (if y = 0 ∨ 0 < g (y - 1) x then TileDirection.North else 0) +
  (if y = hh - 1 ∨ 0 < g (y + 1) x then TileDirection.South else 0)

lemma isColliding_west_decide (hh ww : Nat) (g : Grid) (x y : Nat) :
    isColliding hh ww g x y .west = decide (x = 0 ∨ 0 < g y (x - 1)) := by
  by_cases h : x = 0 <;> simp [isColliding, h]

lemma isColliding_east_decide (hh ww : Nat) (g : Grid) (x y : Nat) :
    isColliding hh ww g x y .east = decide (x = ww - 1 ∨ 0 < g y (x + 1)) := by
  by_cases h : x = ww - 1 <;> simp [isColliding, h]

lemma isColliding_north_decide (hh ww : Nat) (g : Grid) (x y : Nat) :
    isColliding hh ww g x y .north = decide (y = 0 ∨ 0 < g (y - 1) x) := by
  by_cases h : y = 0 <;> simp [isColliding, h]

lemma isColliding_south_decide (hh ww : Nat) (g : Grid) (x y : Nat) :
    isColliding hh ww g x y .south = decide (y = hh - 1 ∨ 0 < g (y + 1) x) := by
  by_cases h : y = hh - 1 <;> simp [isColliding, h]

lemma getTileMask_eq_maskSpec (hh ww : Nat) (g : Grid) (x y : Nat) :
    getTileMask hh ww g x y = maskSpec hh ww g x y := by
  unfold getTileMask maskSpec
  rw [isColliding_west_decide, isColliding_east_decide,
    isColliding_north_decide, isColliding_south_decide]
  by_cases hW : x = 0 ∨ 0 < g y (x - 1) <;>
    by_cases hE : x = ww - 1 ∨ 0 < g y (x + 1) <;>
      by_cases hN : y = 0 ∨ 0 < g (y - 1) x <;>
        by_cases hS : y = hh - 1 ∨ 0 < g (y + 1) x <;>
          simp only [hW, hE, hN, hS, decide_True, decide_False, if_true, if_false,
            iff_true, iff_false] <;>
          decide

lemma getTileMask_pos_of_east (hh ww : Nat) (g : Grid) (x y : Nat)
    (h : isColliding hh ww g x y .east = true) : 0 < getTileMask hh ww g x y := by
  unfold getTileMask
  rw [h]
  cases hW : isColliding hh ww g x y .west <;>
    cases hN : isColliding hh ww g x y .north <;>
      cases hS : isColliding hh ww g x y .south <;> decide

lemma getTileMask_pos_of_south (hh ww : Nat) (g : Grid) (x y : Nat)
    (h : isColliding hh ww g x y .south = true) : 0 < getTileMask hh ww g x y := by
  unfold getTileMask
  rw [h]
  cases hW : isColliding hh ww g x y .west <;>
    cases hE : isColliding hh ww g x y .east <;>
      cases hN : isColliding hh ww g x y .north <;> decide

lemma getTileMask_congr (hh ww : Nat) (G g : Grid) (x y : Nat)
    (h : ∀ s, isColliding hh ww G x y s = isColliding hh ww g x y s) :
    getTileMask hh ww G x y = getTileMask hh ww g x y := by
  unfold getTileMask
  rw [h .west, h .east, h .north, h .south]

lemma cellsFrom_cons (hh ww k : Nat) (hk : k < hh * ww) :
    cellsFrom hh ww k = (k / ww, k % ww) :: cellsFrom hh ww (k + 1) := by
  unfold cellsFrom
  have h1 : hh * ww - k = (hh * ww - (k + 1)) + 1 := by omega
  rw [h1, List.range'_succ, List.map_cons]

lemma rank_div_mod (y x ww : Nat) (hx : x < ww) :
    (y * ww + x) / ww = y ∧ (y * ww + x) % ww = x := by
  constructor
  · rw [Nat.add_comm, Nat.add_mul_div_right _ _ (by omega : 0 < ww),
      Nat.div_eq_of_lt hx, Nat.zero_add]
  · rw [Nat.add_comm, Nat.add_mul_mod_self_right, Nat.mod_eq_of_lt hx]

lemma rank_lt_total (y x hh ww : Nat) (hy : y < hh) (hx : x < ww) :
    y * ww + x < hh * ww := by
  have h1 : (y + 1) * ww ≤ hh * ww := Nat.mul_le_mul_right ww (by omega)
  have h2 : (y + 1) * ww = y * ww + ww := by ring
  omega

lemma isColliding_agree (hh ww : Nat) (g G : Grid) (k : Nat) (hww : 0 < ww)
    (hProc : ∀ y x, y < hh → x < ww → y * ww + x < k →
      G y x = if 0 < g y x then getTileMask hh ww g x y else g y x)
    (hUn : ∀ y x, ¬(y < hh ∧ x < ww ∧ y * ww + x < k) → G y x = g y x)
    (y x : Nat) (hy : y < hh) (hx : x < ww) (hrank : y * ww + x = k)
    (hsolid : 0 < g y x) (s : Side) :
    isColliding hh ww G x y s = isColliding hh ww g x y s := by
  cases s with
  | west =>
    unfold isColliding
    by_cases h0 : x = 0
    · rw [if_pos h0, if_pos h0]
    · rw [if_neg h0, if_neg h0]
      rw [decide_eq_decide]
      have hxm : x - 1 < ww := by omega
      have hrm : y * ww + (x - 1) < k := by omega
      have hv := hProc y (x - 1) hy hxm hrm
      by_cases hpos : 0 < g y (x - 1)
      · rw [if_pos hpos] at hv
        rw [hv]
        have heast : isColliding hh ww g (x - 1) y .east = true := by
          unfold isColliding
          by_cases hb : x - 1 = ww - 1
          · rw [if_pos hb]
          · rw [if_neg hb]
            have hx1 : x - 1 + 1 = x := by omega
            rw [hx1]
            exact decide_eq_true hsolid
        exact ⟨fun _ => hpos, fun _ => getTileMask_pos_of_east hh ww g (x - 1) y heast⟩
      · rw [if_neg hpos] at hv
        rw [hv]
  | east =>
    unfold isColliding
    by_cases h0 : x = ww - 1
    · rw [if_pos h0, if_pos h0]
    · rw [if_neg h0, if_neg h0]
      rw [decide_eq_decide]
      have hv := hUn y (x + 1) (by omega)
      rw [hv]
  | north =>
    unfold isColliding
    by_cases h0 : y = 0
    · rw [if_pos h0, if_pos h0]
    · rw [if_neg h0, if_neg h0]
      rw [decide_eq_decide]
      obtain ⟨m, rfl⟩ : ∃ m, y = m + 1 := ⟨y - 1, by omega⟩
      have hym : m < hh := by omega
      have hr0 : (m + 1) * ww = m * ww + ww := by ring
      have hrm : m * ww + x < k := by omega
      have hv := hProc m x hym hx hrm
      show (0 < G m x) ↔ (0 < g m x)
      by_cases hpos : 0 < g m x
      · rw [if_pos hpos] at hv
        rw [hv]
        have hsouth : isColliding hh ww g x m .south = true := by
          unfold isColliding
          by_cases hb : m = hh - 1
          · rw [if_pos hb]
          · rw [if_neg hb]
            exact decide_eq_true hsolid
        exact ⟨fun _ => hpos, fun _ => getTileMask_pos_of_south hh ww g x m hsouth⟩
      · rw [if_neg hpos] at hv
        rw [hv]
  | south =>
    unfold isColliding
    by_cases h0 : y = hh - 1
    · rw [if_pos h0, if_pos h0]
    · rw [if_neg h0, if_neg h0]
      rw [decide_eq_decide]
      have hr0 : (y + 1) * ww = y * ww + ww := by ring
      have hv := hUn (y + 1) x (by omega)
      rw [hv]

lemma maskFold_invariant (hh ww : Nat) (g : Grid) :
    ∀ (n k : Nat) (G : Grid), k + n = hh * ww →
      (∀ y x, y < hh → x < ww → y * ww + x < k →
        G y x = if 0 < g y x then getTileMask hh ww g x y else g y x) →
      (∀ y x, ¬(y < hh ∧ x < ww ∧ y * ww + x < k) → G y x = g y x) →
      ∀ y x, y < hh → x < ww →
        ((cellsFrom hh ww k).foldl (fun acc yx => maskStep hh ww acc yx.1 yx.2) G) y x =
          if 0 < g y x then getTileMask hh ww g x y else g y x := by
  intro n
  induction n with
  | zero =>
    intro k G hk hProc hUn y x hy hx
    have hempty : cellsFrom hh ww k = [] := by
      unfold cellsFrom
      have : hh * ww - k = 0 := by omega
      rw [this]
      rfl
    rw [hempty, List.foldl_nil]
    exact hProc y x hy hx (by have := rank_lt_total y x hh ww hy hx; omega)
  | succ n ih =>
    intro k G hk hProc hUn y x hy hx
    have hklt : k < hh * ww := by omega
    have hww : 0 < ww := by
      rcases Nat.eq_zero_or_pos ww with h0 | h0
      · rw [h0, Nat.mul_zero] at hklt; omega
      · exact h0
    have hyk : k / ww < hh := by
      rw [Nat.div_lt_iff_lt_mul hww]
      exact hklt
    have hxk : k % ww < ww := Nat.mod_lt _ hww
    have hrankk : k / ww * ww + k % ww = k := by
      rw [Nat.mul_comm]
      exact Nat.div_add_mod k ww
    have hGk : G (k / ww) (k % ww) = g (k / ww) (k % ww) :=
      hUn _ _ (by omega)
    rw [cellsFrom_cons hh ww k hklt, List.foldl_cons]
    apply ih (k + 1) _ (by omega) ?_ ?_ y x hy hx
    · -- the invariant for processed cells after one more step
      intro y2 x2 hy2 hx2 hr2
      by_cases he : y2 * ww + x2 = k
      · have hy2e : y2 = k / ww := by
          have := (rank_div_mod y2 x2 ww hx2).1
          rw [he] at this
          omega
        have hx2e : x2 = k % ww := by
          have := (rank_div_mod y2 x2 ww hx2).2
          rw [he] at this
          omega
        show maskStep hh ww G (k / ww) (k % ww) y2 x2 = _
        rw [← hy2e, ← hx2e] at hGk ⊢
        unfold maskStep
        rw [hGk]
        by_cases hpos : 0 < g y2 x2
        · rw [if_pos hpos, if_pos hpos]
          show updateG G y2 x2 (getTileMask hh ww G x2 y2) y2 x2 = _
          unfold updateG
          rw [if_pos ⟨rfl, rfl⟩]
          exact getTileMask_congr hh ww G g x2 y2
            (isColliding_agree hh ww g G k hww hProc hUn y2 x2 hy2 hx2 he hpos)
        · rw [if_neg hpos, if_neg hpos]
          exact hGk
      · have hlt : y2 * ww + x2 < k := by omega
        have hne : ¬(y2 = k / ww ∧ x2 = k % ww) := by
          rintro ⟨rfl, rfl⟩
          exact he hrankk
        show maskStep hh ww G (k / ww) (k % ww) y2 x2 = _
        unfold maskStep
        split
        · show updateG G (k / ww) (k % ww) _ y2 x2 = _
          unfold updateG
          rw [if_neg hne]
          exact hProc y2 x2 hy2 hx2 hlt
        · exact hProc y2 x2 hy2 hx2 hlt
    · -- the invariant for untouched cells after one more step
      intro y2 x2 h2
      have hne : ¬(y2 = k / ww ∧ x2 = k % ww) := by
        rintro ⟨rfl, rfl⟩
        exact h2 ⟨hyk, hxk, by omega⟩
      have h2w : ¬(y2 < hh ∧ x2 < ww ∧ y2 * ww + x2 < k) := by
        rintro ⟨ha, hb, hc⟩
        exact h2 ⟨ha, hb, by omega⟩
      show maskStep hh ww G (k / ww) (k % ww) y2 x2 = _
      unfold maskStep
      split
      · show updateG G (k / ww) (k % ww) _ y2 x2 = _
        unfold updateG
        rw [if_neg hne]
        exact hUn y2 x2 h2w
      · exact hUn y2 x2 h2w

/-- C4: after the bit-mask pass, every cell that held a solid value
(greater than 0) holds the 4-bit mask, over the flags West, East, North
and South, of which of its four cardinal neighbors were solid in the
grid the pass started from (a neighbor beyond the boundary counting as
solid), and every other cell is unchanged.  The in-place sequential
update is harmless: a solid cell whose mask is 0 is isolated, so no
later solid cell ever reads it as a neighbor. -/
theorem generateTileMask_masks (hh ww : Nat) (g : Grid) (y x : Nat)
    (hy : y < hh) (hx : x < ww) :
    generateTileMask hh ww g y x =
      if 0 < g y x then maskSpec hh ww g x y else g y x := by
  rw [← getTileMask_eq_maskSpec]
  unfold generateTileMask
  exact maskFold_invariant hh ww g (hh * ww) 0 g (by omega)
    (fun _ _ _ _ h => absurd h (by omega))
    (fun _ _ _ => rfl) y x hy hx

/-- C4 witness: the mask property evaluated on a concrete 3 x 4 grid with
two adjacent solid cells. -/
theorem generateTileMask_masks_witness :
    generateTileMask 3 4
      (fun y x => if (y = 1 ∧ x = 1) ∨ (y = 1 ∧ x = 2) then 1 else 0) 1 1 =
      if 0 < (fun y x => if (y = 1 ∧ x = 1) ∨ (y = 1 ∧ x = 2) then (1 : Int) else 0) 1 1 then
        maskSpec 3 4 (fun y x => if (y = 1 ∧ x = 1) ∨ (y = 1 ∧ x = 2) then 1 else 0) 1 1
      else (fun y x => if (y = 1 ∧ x = 1) ∨ (y = 1 ∧ x = 2) then (1 : Int) else 0) 1 1 :=
  generateTileMask_masks 3 4
    (fun y x => if (y = 1 ∧ x = 1) ∨ (y = 1 ∧ x = 2) then 1 else 0) 1 1
    (by decide) (by decide)

/-- A JavaScript read of tilemap[row][x - 1]: out of bounds at x = 0
(undefined), otherwise the cell value. -/
def readLeft (g : Grid) (row x : Nat) : Option Int :=
  if x = 0 then none else some (g row (x - 1))

/-- JavaScript truth of (v > 0) when v may be undefined: comparisons with
undefined are false. -/
def jsPos : Option Int → Bool
  | none => false
  | some v => decide (0 < v)

/-- JavaScript truth of (v <= 0) when v may be undefined. -/
def jsNonpos : Option Int → Bool
  | none => false
  | some v => decide (v ≤ 0)

/-- Normalization rule (a) (dungeon.ts:589): east and south neighbors
solid, south-east diagonal floor. -/
abbrev ruleA (g : Grid) (y x : Nat) : Prop :=
  0 < g y (x + 1) ∧ 0 < g (y + 1) x ∧ g (y + 1) (x + 1) ≤ 0

/-- Normalization rule (b) (dungeon.ts:594): west and south neighbors
solid, south-west diagonal floor; the x - 1 reads are undefined at
x = 0. -/
abbrev ruleB (g : Grid) (y x : Nat) : Prop :=
  jsPos (readLeft g y x) = true ∧ 0 < g (y + 1) x ∧
    jsNonpos (readLeft g (y + 1) x) = true

/-- Normalization rule (c) (dungeon.ts:603): north and east neighbors
solid, north-east diagonal floor. -/
abbrev ruleC (g : Grid) (y x : Nat) : Prop :=
  0 < g (y - 1) x ∧ 0 < g y (x + 1) ∧ g (y - 1) (x + 1) ≤ 0

/-- Normalization rule (d) (dungeon.ts:608): west and north neighbors
solid, north-west diagonal floor. -/
abbrev ruleD (g : Grid) (y x : Nat) : Prop :=
  jsPos (readLeft g y x) = true ∧ 0 < g (y - 1) x ∧
    jsNonpos (readLeft g (y - 1) x) = true

/-- One iteration of the normalizeTileMask loop body (dungeon.ts:578):
the guard is y > 0 and y < height - 1 and x < width - 1 (there is no
x > 0 test), and the four rules are tried in order, first match wins. -/
def normStep (hh ww : Nat) (g : Grid) (y x : Nat) : Grid :=
  if 0 < y ∧ y < hh - 1 ∧ x < ww - 1 then
    if ruleA g y x then updateG g y x DirectionNWS
    else if ruleB g y x then updateG g y x DirectionNES
    else if ruleC g y x then updateG g y x (Int.lor (g y x) TileDirection.NorthEast)
    else if ruleD g y x then updateG g y x (Int.lor (g y x) TileDirection.NorthWest)
    else g
  else g

/-- normalizeTileMask (dungeon.ts:578), the nested loops modelled as one
in-place fold over the cells in row-major order. -/
def normalizeTileMask (hh ww : Nat) (g : Grid) : Grid :=
  (cellsFrom hh ww 0).foldl (fun acc yx => normStep hh ww acc yx.1 yx.2) g

lemma updateG_self (g : Grid) (y x : Nat) (v : Int) : updateG g y x v y x = v := by
  unfold updateG
  rw [if_pos ⟨rfl, rfl⟩]

lemma normStep_keeps (hh ww : Nat) (G : Grid) (yc xc y x : Nat)
    (h : ¬(0 < y ∧ y < hh - 1 ∧ x < ww - 1)) :
    normStep hh ww G yc xc y x = G y x := by
  unfold normStep
  by_cases hg : 0 < yc ∧ yc < hh - 1 ∧ xc < ww - 1
  · rw [if_pos hg]
    have hne : ¬(y = yc ∧ x = xc) := by
      rintro ⟨rfl, rfl⟩
      exact h hg
    split
    · show updateG G yc xc _ y x = G y x
      unfold updateG
      rw [if_neg hne]
    · split
      · show updateG G yc xc _ y x = G y x
        unfold updateG
        rw [if_neg hne]
      · split
        · show updateG G yc xc _ y x = G y x
          unfold updateG
          rw [if_neg hne]
        · split
          · show updateG G yc xc _ y x = G y x
            unfold updateG
            rw [if_neg hne]
          · rfl
  · rw [if_neg hg]

lemma normFold_keeps (hh ww : Nat) (y x : Nat)
    (h : ¬(0 < y ∧ y < hh - 1 ∧ x < ww - 1)) :
    ∀ (l : List (Nat × Nat)) (G : Grid),
      (l.foldl (fun acc yx => normStep hh ww acc yx.1 yx.2) G) y x = G y x := by
  intro l
  induction l with
  | nil => intro G; rfl
  | cons c t ih =>
    intro G
    rw [List.foldl_cons, ih]
    exact normStep_keeps hh ww G c.1 c.2 y x h

/-- C5 amended: the mask-normalization pass leaves every cell of the
first row, the last row and the last column unchanged, and each
processed tile takes at most the first matching rule of (a), (b), (c),
(d) in that order; but the guard omits an x > 0 test, so cells of the
FIRST column (x = 0, with 0 < y < height - 1) are processed as well and
can be modified (their out-of-bounds x - 1 reads behave as JavaScript
undefined comparisons, which are always false). -/
theorem normalizeTileMask_frame (hh ww : Nat) (g : Grid) :
    (∀ y x, y = 0 ∨ y = hh - 1 ∨ x = ww - 1 →
      normalizeTileMask hh ww g y x = g y x) ∧
    (∀ y x, 0 < y → y < hh - 1 → x < ww - 1 →
      (ruleA g y x → normStep hh ww g y x y x = DirectionNWS) ∧
      (¬ruleA g y x → ruleB g y x → normStep hh ww g y x y x = DirectionNES) ∧
      (¬ruleA g y x → ¬ruleB g y x → ruleC g y x →
        normStep hh ww g y x y x = Int.lor (g y x) TileDirection.NorthEast) ∧
      (¬ruleA g y x → ¬ruleB g y x → ¬ruleC g y x → ruleD g y x →
        normStep hh ww g y x y x = Int.lor (g y x) TileDirection.NorthWest) ∧
      (¬ruleA g y x → ¬ruleB g y x → ¬ruleC g y x → ¬ruleD g y x →
        normStep hh ww g y x y x = g y x)) := by
  constructor
  · intro y x hb
    unfold normalizeTileMask
    rw [normFold_keeps hh ww y x (by omega)]
  · intro y x h1 h2 h3
    have hg : 0 < y ∧ y < hh - 1 ∧ x < ww - 1 := ⟨h1, h2, h3⟩
    refine ⟨?_, ?_, ?_, ?_, ?_⟩
    · intro hA
      unfold normStep
      rw [if_pos hg, if_pos hA, updateG_self]
    · intro hA hB
      unfold normStep
      rw [if_pos hg, if_neg hA, if_pos hB, updateG_self]
    · intro hA hB hC
      unfold normStep
      rw [if_pos hg, if_neg hA, if_neg hB, if_pos hC, updateG_self]
    · intro hA hB hC hD
      unfold normStep
      rw [if_pos hg, if_neg hA, if_neg hB, if_neg hC, if_pos hD, updateG_self]
    · intro hA hB hC hD
      unfold normStep
      rw [if_pos hg, if_neg hA, if_neg hB, if_neg hC, if_neg hD]

/-- C5 counterexample: on a concrete 3 x 3 grid the cell at x = 0, y = 1
(a first-column cell, inside the y band) is rewritten by the
normalization pass from 1 to the DirectionNWS constant, because the
loop guard has no x > 0 test; the claim that every x = 0 cell is left
unchanged is therefore false. -/
theorem normalizeTileMask_changes_first_column :
    (fun y x => if (y = 1 ∧ x ≤ 1) ∨ (y = 2 ∧ x = 0) then (1 : Int) else 0) 1 0 = 1 ∧
    normalizeTileMask 3 3
      (fun y x => if (y = 1 ∧ x ≤ 1) ∨ (y = 2 ∧ x = 0) then (1 : Int) else 0) 1 0 =
      DirectionNWS ∧
    DirectionNWS ≠ 1 := by
  refine ⟨by decide, by decide, by decide⟩

/-- C5 witness: the amended frame property evaluated on the same concrete
grid: a first-row cell is unchanged and the processed first-column cell
takes rule (a). -/
theorem normalizeTileMask_frame_witness :
    normalizeTileMask 3 3
      (fun y x => if (y = 1 ∧ x ≤ 1) ∨ (y = 2 ∧ x = 0) then (1 : Int) else 0) 0 1 =
      (fun y x => if (y = 1 ∧ x ≤ 1) ∨ (y = 2 ∧ x = 0) then (1 : Int) else 0) 0 1 ∧
    normStep 3 3
      (fun y x => if (y = 1 ∧ x ≤ 1) ∨ (y = 2 ∧ x = 0) then (1 : Int) else 0) 1 0 1 0 =
      DirectionNWS :=
  ⟨(normalizeTileMask_frame 3 3
      (fun y x => if (y = 1 ∧ x ≤ 1) ∨ (y = 2 ∧ x = 0) then (1 : Int) else 0)).1 0 1
      (Or.inl rfl),
   ((normalizeTileMask_frame 3 3
      (fun y x => if (y = 1 ∧ x ≤ 1) ∨ (y = 2 ∧ x = 0) then (1 : Int) else 0)).2 1 0
      (by decide) (by decide) (by decide)).1 (by decide)⟩

/-- Modelled from the spec: the two trap pattern variants of the external
Traps library (one for horizontal corridors, one for vertical). -/
structure TrapsLib where
  smallLarge : Pattern
  smallLong : Pattern

/-- Modelled from the spec: a corridor's derived orientation, horizontal
when it is wider than high. -/
def Corridor.horizontal (c : Corridor) : Bool := decide (c.height < c.width)

/-- generateCorridors (dungeon.ts:242), pre-order: a childless node is a
no-op; otherwise connect the centers of the two child containers
(node.left.leaf.center and node.right.leaf.center), rounding up, with a
vertical corridor of width ceil(corridorWidth) when the centers share
their x coordinate and a horizontal one of that height otherwise; flip
the trap coin, attach the orientation's trap pattern on success, store
the corridor on the node's container, then recurse.  The trap coin draws
are threaded by index. -/
def generateCorridors (a : DungeonArgs) (tl : TrapsLib) (os : Nat → Rat) :
    PTree → Nat → PTree × Nat
  | .leaf c, i => (.leaf c, i)
  | .node c l r, i =>
    let lc := (containerOf l).center
    let rc := (containerOf r).center
    let x : Int := ⌈lc.1⌉
    let y : Int := ⌈lc.2⌉
    let cor : Corridor :=
      if lc.1 = rc.1 then
        { x := x, y := y, width := ⌈a.corridorWidth⌉, height := ⌈rc.2⌉ - y }
      else
        { x := x, y := y, width := ⌈rc.1⌉ - x, height := ⌈a.corridorWidth⌉ }
    let cor2 :=
      if coinFlip a.corridorTrapChance (os i) then
        { cor with traps := some (if cor.horizontal then tl.smallLarge else tl.smallLong) }
      else cor
    (.node { c with corridor := some cor2 }
      (generateCorridors a tl os l (i + 1)).1
      (generateCorridors a tl os r (generateCorridors a tl os l (i + 1)).2).1,
     (generateCorridors a tl os r (generateCorridors a tl os l (i + 1)).2).2)

lemma splitContainer_rooms (a : DungeonArgs) (c : Container) :
    ∀ (l : List Choice) (L R : Container) (rest : List Choice),
      splitContainer a c l = some ((L, R), rest) →
      L.room = none ∧ R.room = none := by
  intro l
  induction l with
  | nil => intro L R rest h; simp [splitContainer] at h
  | cons ch rest2 ih =>
    intro L R rest h
    rw [splitContainer] at h
    by_cases hd : ch.dir
    · simp only [hd, if_true] at h
      split at h
      · exact ih _ _ _ h
      · simp only [Option.some.injEq, Prod.mk.injEq] at h
        obtain ⟨⟨hL, hR⟩, _⟩ := h
        subst hL; subst hR
        exact ⟨rfl, rfl⟩
    · simp only [hd, if_false, Bool.false_eq_true] at h
      split at h
      · exact ih _ _ _ h
      · simp only [Option.some.injEq, Prod.mk.injEq] at h
        obtain ⟨⟨hL, hR⟩, _⟩ := h
        subst hL; subst hR
        exact ⟨rfl, rfl⟩

lemma generateTree_roomless (a : DungeonArgs) :
    ∀ (n : Nat) (c : Container) (l : List Choice) (t : PTree) (rest : List Choice),
      c.room = none → generateTree a n c l = some (t, rest) →
      ∀ d ∈ leavesOf t, d.room = none := by
  intro n
  induction n with
  | zero =>
    intro c l t rest hc h
    simp only [generateTree, Option.some.injEq, Prod.mk.injEq] at h
    obtain ⟨ht, _⟩ := h
    subst ht
    intro d hd
    simp only [leavesOf, List.mem_singleton] at hd
    subst hd
    exact hc
  | succ n ih =>
    intro c l t rest hc h
    rw [generateTree] at h
    split at h
    · exact absurd h (by simp)
    · rename_i hsplit
      split at h
      · exact absurd h (by simp)
      · rename_i tl2 l2 hleft
        split at h
        · exact absurd h (by simp)
        · rename_i tr2 l3 hright
          simp only [Option.some.injEq, Prod.mk.injEq] at h
          obtain ⟨ht, _⟩ := h
          subst ht
          obtain ⟨hLr, hRr⟩ := splitContainer_rooms a c _ _ _ _ hsplit
          intro d hd
          simp only [leavesOf, List.mem_append] at hd
          rcases hd with hd | hd
          · exact ih _ _ _ _ hLr hleft d hd
          · exact ih _ _ _ _ hRr hright d hd

lemma leavesOf_subset_allContainers :
    ∀ (t : PTree) (c : Container), c ∈ leavesOf t → c ∈ allContainers t := by
  intro t
  induction t with
  | leaf c =>
    intro d hd
    simpa [leavesOf, allContainers] using hd
  | node c l r ihl ihr =>
    intro d hd
    simp only [leavesOf, List.mem_append] at hd
    simp only [allContainers, List.mem_cons, List.mem_append]
    rcases hd with hd | hd
    · exact Or.inr (Or.inl (ihl d hd))
    · exact Or.inr (Or.inr (ihr d hd))

lemma splitContainer_children (a : DungeonArgs) (c : Container)
    (hwr : 0 < a.containerWidthRatio) (hhr : 0 < a.containerHeightRatio)
    (hw : 0 < c.width) (hh : 0 < c.height) :
    ∀ (l : List Choice) (L R : Container) (rest : List Choice),
      splitContainer a c l = some ((L, R), rest) →
      (c.x ≤ L.x ∧ c.y ≤ L.y ∧ L.x + L.width ≤ c.x + c.width ∧
        L.y + L.height ≤ c.y + c.height ∧ 0 < L.width ∧ 0 < L.height) ∧
      (c.x ≤ R.x ∧ c.y ≤ R.y ∧ R.x + R.width ≤ c.x + c.width ∧
        R.y + R.height ≤ c.y + c.height ∧ 0 < R.width ∧ 0 < R.height) := by
  have hwq : (0 : Rat) < (c.width : Rat) := by exact_mod_cast hw
  have hhq : (0 : Rat) < (c.height : Rat) := by exact_mod_cast hh
  intro l
  induction l with
  | nil => intro L R rest h; simp [splitContainer] at h
  | cons ch rest2 ih =>
    intro L R rest h
    rw [splitContainer] at h
    by_cases hd : ch.dir
    · simp only [hd, if_true] at h
      split at h
      · exact ih _ _ _ h
      · rename_i hacc
        rw [not_or] at hacc
        obtain ⟨hacc1, hacc2⟩ := hacc
        have hq1 : (0 : Rat) < (ch.r : Rat) / (c.height : Rat) :=
          lt_of_lt_of_le hwr (le_of_not_lt hacc1)
        have hq2 : (0 : Rat) < ((c.width - ch.r : Int) : Rat) / (c.height : Rat) :=
          lt_of_lt_of_le hwr (le_of_not_lt hacc2)
        have hp1 : (0 : Int) < ch.r := by
          rcases div_pos_iff.mp hq1 with ⟨ha, _⟩ | ⟨_, hb⟩
          · exact_mod_cast ha
          · linarith
        have hp2 : (0 : Int) < c.width - ch.r := by
          rcases div_pos_iff.mp hq2 with ⟨ha, _⟩ | ⟨_, hb⟩
          · exact_mod_cast ha
          · linarith
        simp only [Option.some.injEq, Prod.mk.injEq] at h
        obtain ⟨⟨hL, hR⟩, _⟩ := h
        subst hL; subst hR
        refine ⟨⟨le_refl _, le_refl _, ?_, le_refl _, hp1, hh⟩,
          ⟨?_, le_refl _, ?_, le_refl _, hp2, hh⟩⟩
        · show c.x + ch.r ≤ c.x + c.width
          omega
        · show c.x ≤ c.x + ch.r
          omega
        · show c.x + ch.r + (c.width - ch.r) ≤ c.x + c.width
          omega
    · simp only [hd, if_false, Bool.false_eq_true] at h
      split at h
      · exact ih _ _ _ h
      · rename_i hacc
        rw [not_or] at hacc
        obtain ⟨hacc1, hacc2⟩ := hacc
        have hq1 : (0 : Rat) < (ch.r : Rat) / (c.width : Rat) :=
          lt_of_lt_of_le hhr (le_of_not_lt hacc1)
        have hq2 : (0 : Rat) < ((c.height - ch.r : Int) : Rat) / (c.width : Rat) :=
          lt_of_lt_of_le hhr (le_of_not_lt hacc2)
        have hp1 : (0 : Int) < ch.r := by
          rcases div_pos_iff.mp hq1 with ⟨ha, _⟩ | ⟨_, hb⟩
          · exact_mod_cast ha
          · linarith
        have hp2 : (0 : Int) < c.height - ch.r := by
          rcases div_pos_iff.mp hq2 with ⟨ha, _⟩ | ⟨_, hb⟩
          · exact_mod_cast ha
          · linarith
        simp only [Option.some.injEq, Prod.mk.injEq] at h
        obtain ⟨⟨hL, hR⟩, _⟩ := h
        subst hL; subst hR
        refine ⟨⟨le_refl _, le_refl _, le_refl _, ?_, hw, hp1⟩,
          ⟨le_refl _, ?_, le_refl _, ?_, hw, hp2⟩⟩
        · show c.y + ch.r ≤ c.y + c.height
          omega
        · show c.y ≤ c.y + ch.r
          omega
        · show c.y + ch.r + (c.height - ch.r) ≤ c.y + c.height
          omega

lemma generateTree_containers (a : DungeonArgs)
    (hwr : 0 < a.containerWidthRatio) (hhr : 0 < a.containerHeightRatio) :
    ∀ (n : Nat) (c : Container) (l : List Choice) (t : PTree) (rest : List Choice),
      0 < c.width → 0 < c.height →
      generateTree a n c l = some (t, rest) →
      ∀ d ∈ allContainers t,
        c.x ≤ d.x ∧ c.y ≤ d.y ∧ d.x + d.width ≤ c.x + c.width ∧
        d.y + d.height ≤ c.y + c.height ∧ 0 < d.width ∧ 0 < d.height := by
  intro n
  induction n with
  | zero =>
    intro c l t rest hw hh h
    simp only [generateTree, Option.some.injEq, Prod.mk.injEq] at h
    obtain ⟨ht, _⟩ := h
    subst ht
    intro d hd
    simp only [allContainers, List.mem_singleton] at hd
    subst hd
    exact ⟨le_refl _, le_refl _, le_refl _, le_refl _, hw, hh⟩
  | succ n ih =>
    intro c l t rest hw hh h
    rw [generateTree] at h
    split at h
    · exact absurd h (by simp)
    · rename_i hsplit
      split at h
      · exact absurd h (by simp)
      · rename_i tl2 l2 hleft
        split at h
        · exact absurd h (by simp)
        · rename_i tr2 l3 hright
          simp only [Option.some.injEq, Prod.mk.injEq] at h
          obtain ⟨ht, _⟩ := h
          subst ht
          obtain ⟨⟨hL1, hL2, hL3, hL4, hL5, hL6⟩, hR1, hR2, hR3, hR4, hR5, hR6⟩ :=
            splitContainer_children a c hwr hhr hw hh _ _ _ _ hsplit
          intro d hd
          simp only [allContainers, List.mem_cons, List.mem_append] at hd
          rcases hd with rfl | hd | hd
          · exact ⟨le_refl _, le_refl _, le_refl _, le_refl _, hw, hh⟩
          · obtain ⟨h1, h2, h3, h4, h5, h6⟩ := ih _ _ _ _ hL5 hL6 hleft d hd
            exact ⟨by omega, by omega, by omega, by omega, h5, h6⟩
          · obtain ⟨h1, h2, h3, h4, h5, h6⟩ := ih _ _ _ _ hR5 hR6 hright d hd
            exact ⟨by omega, by omega, by omega, by omega, h5, h6⟩

/-- C10 amended: the root container is the map rectangle inset by
mapGutterWidth on every side, and with positive minimum ratios and a
positive inset rectangle every container of the partition tree and every
room assigned by generateRooms stays inside that inset rectangle (no
container or room extends into the outer border); corridors, however,
can extend into the border, so they are excluded (see the
counterexample). -/
theorem rootContainer_inset (a : DungeonArgs) (lib : List Pattern)
    (n : Nat) (l : List Choice) (t : PTree) (rest : List Choice)
    (os : Nat → RoomRand)
    (hwr : 0 < a.containerWidthRatio) (hhr : 0 < a.containerHeightRatio)
    (hrw : 0 < a.mapWidth - a.mapGutterWidth * 2)
    (hrh : 0 < a.mapHeight - a.mapGutterWidth * 2)
    (hg : 0 ≤ a.containerGutterWidth)
    (hos : ∀ j, 0 ≤ (os j).jx ∧ 0 ≤ (os j).jy ∧ 0 ≤ (os j).jw ∧ 0 ≤ (os j).jh)
    (ht : generateTree a n (rootContainer a) l = some (t, rest)) :
    rootContainer a = Container.mk a.mapGutterWidth a.mapGutterWidth
      (a.mapWidth - a.mapGutterWidth * 2) (a.mapHeight - a.mapGutterWidth * 2)
      none none ∧
    (∀ d ∈ allContainers t,
      a.mapGutterWidth ≤ d.x ∧ a.mapGutterWidth ≤ d.y ∧
      d.x + d.width ≤ a.mapWidth - a.mapGutterWidth ∧
      d.y + d.height ≤ a.mapHeight - a.mapGutterWidth) ∧
    (∀ c2 ∈ leavesOf (generateRooms a lib t os), ∀ r, c2.room = some r →
      a.mapGutterWidth ≤ r.x ∧ a.mapGutterWidth ≤ r.y ∧
      r.x + r.width ≤ a.mapWidth - a.mapGutterWidth ∧
      r.y + r.height ≤ a.mapHeight - a.mapGutterWidth) := by
  refine ⟨rfl, ?_, ?_⟩
  · intro d hd
    have hcb := generateTree_containers a hwr hhr n (rootContainer a) l t rest
      hrw hrh ht d hd
    have hb1 : a.mapGutterWidth ≤ d.x := hcb.1
    have hb2 : a.mapGutterWidth ≤ d.y := hcb.2.1
    have hb3 : d.x + d.width ≤
        a.mapGutterWidth + (a.mapWidth - a.mapGutterWidth * 2) := hcb.2.2.1
    have hb4 : d.y + d.height ≤
        a.mapGutterWidth + (a.mapHeight - a.mapGutterWidth * 2) := hcb.2.2.2.1
    exact ⟨hb1, hb2, by omega, by omega⟩
  · intro c2 hc2 r hr
    obtain ⟨j, c0, hc0, he⟩ := mem_leaves_genRoomsAux a lib os t 0 c2 hc2
    have hnone : c0.room = none :=
      generateTree_roomless a n (rootContainer a) l t rest rfl ht c0 hc0
    obtain ⟨hjx, hjy, hjw, hjh⟩ := hos j
    subst he
    obtain ⟨hdis, hrx, hry, hrw2, hrh2, _⟩ :=
      assignRoom_room_cases a lib c0 (os j) r hnone hr
    have hcb := generateTree_containers a hwr hhr n (rootContainer a) l t rest
      hrw hrh ht c0 (leavesOf_subset_allContainers t c0 hc0)
    have hb1 : a.mapGutterWidth ≤ c0.x := hcb.1
    have hb2 : a.mapGutterWidth ≤ c0.y := hcb.2.1
    have hb3 : c0.x + c0.width ≤
        a.mapGutterWidth + (a.mapWidth - a.mapGutterWidth * 2) := hcb.2.2.1
    have hb4 : c0.y + c0.height ≤
        a.mapGutterWidth + (a.mapHeight - a.mapGutterWidth * 2) := hcb.2.2.2.1
    rw [hrx, hry, hrw2, hrh2]
    unfold roomW roomH roomX roomY
    refine ⟨by omega, by omega, by omega, by omega⟩

/-- C10 counterexample: with corridorWidth = 6 on a 10 x 10 map with
mapGutterWidth = 1, the one-split tree gets from generateCorridors a
vertical corridor (5, 3, 6, 4) whose right edge 5 + 6 = 11 exceeds
mapWidth - mapGutterWidth = 9, so a corridor derived from the tree does
extend into (and past) the outer border. -/
theorem corridor_extends_into_border :
    generateTree (DungeonArgs.mk 10 10 1 1 1 (1/4) (1/4) 1 2 2 0 6 0) 1
      (rootContainer (DungeonArgs.mk 10 10 1 1 1 (1/4) (1/4) 1 2 2 0 6 0))
      [Choice.mk false 4] =
      some (PTree.node (Container.mk 1 1 8 8 none none)
        (PTree.leaf (Container.mk 1 1 8 4 none none))
        (PTree.leaf (Container.mk 1 5 8 4 none none)), []) ∧
    (containerOf (generateCorridors (DungeonArgs.mk 10 10 1 1 1 (1/4) (1/4) 1 2 2 0 6 0)
        (TrapsLib.mk (Pattern.mk 1 1 [[0]]) (Pattern.mk 1 1 [[0]])) (fun _ => 0)
        (PTree.node (Container.mk 1 1 8 8 none none)
          (PTree.leaf (Container.mk 1 1 8 4 none none))
          (PTree.leaf (Container.mk 1 5 8 4 none none))) 0).1).corridor =
      some (Corridor.mk 5 3 6 4 none) ∧
    (DungeonArgs.mk 10 10 1 1 1 (1/4) (1/4) 1 2 2 0 6 0).mapWidth -
      (DungeonArgs.mk 10 10 1 1 1 (1/4) (1/4) 1 2 2 0 6 0).mapGutterWidth <
      (Corridor.mk 5 3 6 4 none).x + (Corridor.mk 5 3 6 4 none).width := by
  refine ⟨by norm_num [generateTree, splitContainer, rootContainer], ?_, by norm_num⟩
  norm_num [generateCorridors, containerOf, Container.center, coinFlip,
    randomWeights, Corridor.horizontal]

/-- C10 witness: the amended inset property evaluated on a concrete
one-split tree of a 10 x 10 map with unit gutter. -/
theorem rootContainer_inset_witness :
    rootContainer (DungeonArgs.mk 10 10 1 1 1 (1/4) (1/4) 1 2 2 0 2 0) =
      Container.mk (DungeonArgs.mk 10 10 1 1 1 (1/4) (1/4) 1 2 2 0 2 0).mapGutterWidth
        (DungeonArgs.mk 10 10 1 1 1 (1/4) (1/4) 1 2 2 0 2 0).mapGutterWidth
        ((DungeonArgs.mk 10 10 1 1 1 (1/4) (1/4) 1 2 2 0 2 0).mapWidth -
          (DungeonArgs.mk 10 10 1 1 1 (1/4) (1/4) 1 2 2 0 2 0).mapGutterWidth * 2)
        ((DungeonArgs.mk 10 10 1 1 1 (1/4) (1/4) 1 2 2 0 2 0).mapHeight -
          (DungeonArgs.mk 10 10 1 1 1 (1/4) (1/4) 1 2 2 0 2 0).mapGutterWidth * 2)
        none none ∧
    (∀ d ∈ allContainers (PTree.node (Container.mk 1 1 8 8 none none)
        (PTree.leaf (Container.mk 1 1 4 8 none none))
        (PTree.leaf (Container.mk 5 1 4 8 none none))),
      (DungeonArgs.mk 10 10 1 1 1 (1/4) (1/4) 1 2 2 0 2 0).mapGutterWidth ≤ d.x ∧
      (DungeonArgs.mk 10 10 1 1 1 (1/4) (1/4) 1 2 2 0 2 0).mapGutterWidth ≤ d.y ∧
      d.x + d.width ≤ (DungeonArgs.mk 10 10 1 1 1 (1/4) (1/4) 1 2 2 0 2 0).mapWidth -
        (DungeonArgs.mk 10 10 1 1 1 (1/4) (1/4) 1 2 2 0 2 0).mapGutterWidth ∧
      d.y + d.height ≤ (DungeonArgs.mk 10 10 1 1 1 (1/4) (1/4) 1 2 2 0 2 0).mapHeight -
        (DungeonArgs.mk 10 10 1 1 1 (1/4) (1/4) 1 2 2 0 2 0).mapGutterWidth) ∧
    (∀ c2 ∈ leavesOf (generateRooms (DungeonArgs.mk 10 10 1 1 1 (1/4) (1/4) 1 2 2 0 2 0) []
        (PTree.node (Container.mk 1 1 8 8 none none)
          (PTree.leaf (Container.mk 1 1 4 8 none none))
          (PTree.leaf (Container.mk 5 1 4 8 none none)))
        (fun _ => RoomRand.mk 1 1 1 1 0)), ∀ r, c2.room = some r →
      (DungeonArgs.mk 10 10 1 1 1 (1/4) (1/4) 1 2 2 0 2 0).mapGutterWidth ≤ r.x ∧
      (DungeonArgs.mk 10 10 1 1 1 (1/4) (1/4) 1 2 2 0 2 0).mapGutterWidth ≤ r.y ∧
      r.x + r.width ≤ (DungeonArgs.mk 10 10 1 1 1 (1/4) (1/4) 1 2 2 0 2 0).mapWidth -
        (DungeonArgs.mk 10 10 1 1 1 (1/4) (1/4) 1 2 2 0 2 0).mapGutterWidth ∧
      r.y + r.height ≤ (DungeonArgs.mk 10 10 1 1 1 (1/4) (1/4) 1 2 2 0 2 0).mapHeight -
        (DungeonArgs.mk 10 10 1 1 1 (1/4) (1/4) 1 2 2 0 2 0).mapGutterWidth) :=
  rootContainer_inset (DungeonArgs.mk 10 10 1 1 1 (1/4) (1/4) 1 2 2 0 2 0) []
    1 [Choice.mk true 4]
    (PTree.node (Container.mk 1 1 8 8 none none)
      (PTree.leaf (Container.mk 1 1 4 8 none none))
      (PTree.leaf (Container.mk 5 1 4 8 none none))) []
    (fun _ => RoomRand.mk 1 1 1 1 0)
    (by norm_num) (by norm_num) (by decide) (by decide) (by decide)
    (by intro j; refine ⟨?_, ?_, ?_, ?_⟩ <;> norm_num)
    (by norm_num [generateTree, splitContainer, rootContainer])
